import Mathlib

/-!
# Verification of the oead AAMP text codec (`src/aamp_text.cpp`)

A shallow embedding of the AAMP (Binary Parameter Archive) YAML text codec of
the oead library, together with proofs about it.

The embedding follows `src/aamp_text.cpp`.  Supporting code of the repository
that is not under `src/` (the data model in `aamp.h`, the shared YAML scalar
layer in `yaml.h`/`yaml.cpp`, `util::crc32`) is modelled from the
specification; every such definition carries a doc comment explaining what is
modelled.  In particular the textual YAML layer is abstracted into a tree of
*typed* scalars: emitting a value and re-reading the emitted text is modelled
as the identity on typed scalar values, per the spec's description of the
shared scalar codec (tag-preserving, type-preserving quoting).

Strings are modelled as byte sequences (`ByteStr`), machine integers as `Nat`
or `Int` with explicit `% 2^w` wrapping, and IEEE-754 `f32` values as their
bit patterns (the f32 → f64 → f32 conversion performed by the scalar layer is
exact, hence the identity on bit patterns).
-/

set_option maxRecDepth 100000

namespace OeadAamp

/-- A byte string: the model of `std::string` / `std::string_view`.
Each element is one byte (values `< 256` for well-formed data). -/
abbrev ByteStr := List Nat

/-- Bytes of an ASCII string literal (used for concrete names in proofs). -/
def bs (s : String) : ByteStr := s.data.map Char.toNat

/-- One round of the CRC-32 shift register: shift right, conditionally xor the
reflected polynomial `0xEDB88320`.  Modelled from the spec glossary:
"CRC32: 32-bit cyclic redundancy check … (poly 0xEDB88320)"; `util::crc32`
itself is not under `src/`. -/
def crcRound (c : Nat) : Nat :=
  if c % 2 = 1 then (c / 2) ^^^ 0xEDB88320 else c / 2

/-- Feed one byte into the CRC-32 register. -/
def crcByte (c b : Nat) : Nat := crcRound^[8] (c ^^^ (b % 256))

/-- `util::crc32` of a byte string (init `0xFFFFFFFF`, final complement).
Modelled from the spec: standard reflected CRC-32, polynomial `0xEDB88320`. -/
def crc32 (s : ByteStr) : Nat :=
  (s.foldl crcByte 0xFFFFFFFF) ^^^ 0xFFFFFFFF

/-- Decimal digits of `n` (ASCII bytes), as printed by `%d` for a
non-negative argument. -/
def dec (n : Nat) : ByteStr := (Nat.toDigits 10 n).map Char.toNat

/-- Decimal digits of `n` left-padded with `'0'` to width `w`:
`printf`-style `%0wd` for a non-negative argument. -/
def padDec (w n : Nat) : ByteStr :=
  List.replicate (w - (dec n).length) 48 ++ dec n

/-- `absl::StrFormat` applied to one of the numbered-names patterns: the
first `%d` in the pattern is replaced by the decimal form of `i`.
Modelled from the spec: `numbered_names` is an "ordered sequence of
printf-style format strings (e.g. `"Child%d"`)". -/
def fmtApply (fmt : ByteStr) (i : Nat) : ByteStr :=
  match fmt with
  | [] => []
  | 37 :: 100 :: rest => dec i ++ rest
  | b :: rest => b :: fmtApply rest i

/-- The candidates produced for one value of `i` by the six format strings
`{"%s%d", "%s_%d", "%s%02d", "%s_%02d", "%s%03d", "%s_%03d"}` of
`NameTable::GetName`, in the order they are listed in the source
(`aamp_text.cpp`, the `formats` array). -/
def fmtCands (pre : ByteStr) (i : Nat) : List ByteStr :=
  [pre ++ dec i,
   pre ++ [95] ++ dec i,
   pre ++ padDec 2 i,
   pre ++ [95] ++ padDec 2 i,
   pre ++ padDec 3 i,
   pre ++ [95] ++ padDec 3 i]

/-- All candidates tested by the `test_names` lambda of `NameTable::GetName`,
in the order the code enumerates them: the outer loop ranges over
`i ∈ {index, index + 1}` and the inner loop over the six formats
(`aamp_text.cpp` lines 92-98). -/
def codeCandidates (pre : ByteStr) (index : Nat) : List ByteStr :=
  fmtCands pre index ++ fmtCands pre (index + 1)

/-- The candidate enumeration order stated by the specification (§4.5 step 3):
the outer loop over the six format patterns in the listed order, the inner
loop over `i ∈ {index, index + 1}`.  This definition follows the spec's words,
to be compared with `codeCandidates` which follows the source. -/
def specCandidates (pre : ByteStr) (index : Nat) : List ByteStr :=
  [pre ++ dec index, pre ++ dec (index + 1),
   pre ++ [95] ++ dec index, pre ++ [95] ++ dec (index + 1),
   pre ++ padDec 2 index, pre ++ padDec 2 (index + 1),
   pre ++ [95] ++ padDec 2 index, pre ++ [95] ++ padDec 2 (index + 1),
   pre ++ padDec 3 index, pre ++ padDec 3 (index + 1),
   pre ++ [95] ++ padDec 3 index, pre ++ [95] ++ padDec 3 (index + 1)]

/-- The NameTable: two hash → name dictionaries plus the numbered-names
pattern list.  `names` and `owned_names` are `absl::flat_hash_map`s in the
source (`oead/aamp.h`, modelled from the spec §3.4); lookup is by key and
iteration order of the dictionaries is never observed, so association lists
are a faithful model. -/
structure NameTable where
  names : List (Nat × ByteStr)
  owned_names : List (Nat × ByteStr)
  numbered_names : List ByteStr
deriving DecidableEq

/-- `map.find(k)` on an association list. -/
def lookupL (m : List (Nat × ByteStr)) (k : Nat) : Option ByteStr :=
  (m.find? (fun e => e.1 == k)).map (·.2)

/-- `NameTable::AddName` (`aamp_text.cpp` lines 128-131):
`owned_names.emplace(hash, name)` keeps an existing entry and returns
`it->second`, i.e. the stored string. -/
def addName (t : NameTable) (h : Nat) (n : ByteStr) : NameTable × ByteStr :=
  match lookupL t.owned_names h with
  | some ex => (t, ex)
  | none => ({ t with owned_names := t.owned_names ++ [(h, n)] }, n)

/-- `NameTable::AddNameReference` (`aamp_text.cpp` lines 133-135):
`names.emplace(crc32(name), name)`, keeping an existing entry. -/
def addNameReference (t : NameTable) (n : ByteStr) : NameTable :=
  match lookupL t.names (crc32 n) with
  | some _ => t
  | none => { t with names := t.names ++ [(crc32 n, n)] }

/-- The `test_names` lambda of `NameTable::GetName` (`aamp_text.cpp` lines
83-100): try the candidates in code order; on the first CRC32 match, insert
via `AddName` and return the stored string together with the updated table. -/
def testNames (t : NameTable) (hash index : Nat) (pre : ByteStr) :
    Option (NameTable × ByteStr) :=
  match (codeCandidates pre index).find? (fun c => crc32 c == hash) with
  | some c => some (addName t hash c)
  | none => none

/-- Drop a suffix of the given length from the end of a name
(`parent_name.substr(0, parent_name.size() - suffix.size())`). -/
def dropSfx (p sfx : ByteStr) : ByteStr := p.take (p.length - sfx.length)

/-- The suffix-stripping loop of `NameTable::GetName` (`aamp_text.cpp` lines
108-113): for each suffix in `{"s", "es", "List"}`, if the parent name ends
with it, re-try `test_names` with the suffix stripped; on failure continue
with the next suffix. -/
def suffixPhase (t : NameTable) (hash index : Nat) (parentName : ByteStr) :
    List ByteStr → Option (NameTable × ByteStr)
  | [] => none
  | sfx :: rest =>
    if sfx.isSuffixOf parentName then
      match testNames t hash index (dropSfx parentName sfx) with
      | some r => some r
      | none => suffixPhase t hash index parentName rest
    else suffixPhase t hash index parentName rest

/-- The last-resort numbered-names scan of `NameTable::GetName`
(`aamp_text.cpp` lines 117-123): for each pattern (outer), for each
`i ∈ [0, index + 2)` (inner), test the formatted candidate. -/
def numberedScan (t : NameTable) (hash index : Nat) :
    Option ByteStr × NameTable :=
  match (t.numbered_names.flatMap
      (fun f => (List.range (index + 2)).map (fun i => fmtApply f i))).find?
      (fun c => crc32 c == hash) with
  | some c =>
    let r := addName t hash c
    (some r.2, r.1)
  | none => (none, t)

/-- `NameTable::GetName` (`aamp_text.cpp` lines 72-126).  Returns the
resolved name (if any) and the updated table (guessed names are inserted
into `owned_names`). -/
def getName (t : NameTable) (hash index parent : Nat) :
    Option ByteStr × NameTable :=
  match lookupL t.names hash with
  | some s => (some s, t)
  | none =>
  match lookupL t.owned_names hash with
  | some s => (some s, t)
  | none =>
  match lookupL t.names parent with
  | some parentName =>
    match testNames t hash index parentName with
    | some r => (some r.2, r.1)
    | none =>
    match testNames t hash index (bs "Children") with
    | some r => (some r.2, r.1)
    | none =>
    match suffixPhase t hash index parentName [bs "s", bs "es", bs "List"] with
    | some r => (some r.2, r.1)
    | none => numberedScan t hash index
  | none => numberedScan t hash index

/-- `NameTable{false}`: a table with everything empty (`aamp_text.cpp`
lines 55-57, the constructor returns immediately). -/
def emptyTable : NameTable := ⟨[], [], []⟩

example : crc32 (bs "123456789") = 0xCBF43926 := by decide
example : crc32 [] = 0 := by decide
example : crc32 (bs "param_root") = 0xA4F6CB6C := by decide

/-! ## The AAMP data model

Modelled from the spec §3.2-§3.3 (`oead/aamp.h` is not under `src/`): a
`Parameter` is a discriminated union over ~20 variants; `ParameterObject` and
`ParameterList` are ordered maps keyed by `u32` CRC32 hashes (oead uses
insertion-ordered maps; iteration is in insertion order and `emplace` keeps
an existing entry).  `f32` values are represented by their bit patterns. -/

/-- One animation curve: `{u32 a, u32 b, f32[30]}` (spec §3.2).  The float
entries are f32 bit patterns. -/
structure Curve where
  a : Nat
  b : Nat
  floats : List Nat
deriving DecidableEq

/-- The `Parameter` variant, one constructor per type tag, in the tag order
of spec §6 (Bool=0 … String=20).  `f` carries an f32 bit pattern, `i` a
signed 32-bit integer, vector/color/quaternion components are f32 bit
patterns, buffers are typed arrays, strings are byte strings. -/
inductive Parameter where
  | b (v : Bool)
  | f (bits : Nat)
  | i (v : Int)
  | vec2 (x y : Nat)
  | vec3 (x y z : Nat)
  | vec4 (x y z w : Nat)
  | color (r g bb a : Nat)
  | str32 (s : ByteStr)
  | str64 (s : ByteStr)
  | curve1 (c1 : Curve)
  | curve2 (c1 c2 : Curve)
  | curve3 (c1 c2 c3 : Curve)
  | curve4 (c1 c2 c3 c4 : Curve)
  | bufInt (v : List Int)
  | bufF32 (v : List Nat)
  | str256 (s : ByteStr)
  | quat (x y z w : Nat)
  | u32 (v : Nat)
  | bufU32 (v : List Nat)
  | bufBin (v : List Nat)
  | str (s : ByteStr)
deriving DecidableEq

/-- `ParameterObject`: an ordered map `u32 hash → Parameter` (spec §3.3),
modelled as an association list in insertion order. -/
structure ParameterObject where
  params : List (Nat × Parameter)
deriving DecidableEq

mutual
/-- `ParameterList`: an ordered map of objects and an ordered map of
sub-lists, each keyed by `u32` hash (spec §3.3). -/
inductive ParameterList where
  | mk (objects : List (Nat × ParameterObject)) (lists : PListEntries)

/-- The entries of a `ParameterList`'s `lists` map, as a specialised list so
that mutual structural recursion over the tree is available. -/
inductive PListEntries where
  | nil
  | cons (name : Nat) (v : ParameterList) (rest : PListEntries)
end

/-- The `objects` map of a `ParameterList`. -/
def ParameterList.objects : ParameterList → List (Nat × ParameterObject)
  | .mk o _ => o

/-- The `lists` map of a `ParameterList`. -/
def ParameterList.lists : ParameterList → PListEntries
  | .mk _ l => l

/-- `ParameterIO`: a `ParameterList` extended with `u32 version` and a type
string (spec §3.3). -/
structure ParameterIO where
  version : Nat
  type : ByteStr
  root : ParameterList

/-- `ParameterIO::ParamRootKey`: the CRC32 of `"param_root"` (spec §3.3). -/
def ParamRootKey : Nat := crc32 (bs "param_root")

/-! ## The abstract YAML tree

The textual YAML layer (libyaml emission, ryml parsing, and the shared
scalar codec `yml::ParseScalar` of `yaml.h`, which are not under `src/`) is
modelled from the spec §4.6: a scalar is a *typed* value (null, bool, 64-bit
unsigned integer pattern, f32 bit pattern, or string), and serialising a
typed scalar to text and re-parsing it yields the same typed scalar (the
emitter quotes strings that would otherwise be recognised as another type,
and integer/float classification is preserved).  Tags are kept verbatim on
nodes. -/

/-- A parsed YAML scalar value (`yml::Scalar`). `int` carries the 64-bit
two's-complement pattern of the integer; `float` carries the f32 bit
pattern round-tripped through f64. -/
inductive Scalar where
  | null
  | bool (b : Bool)
  | int (n : Nat)
  | float (bits : Nat)
  | str (s : ByteStr)
deriving DecidableEq

/-- The oead error taxonomy restricted to what the text codec can raise:
`InvalidData` (`oead::InvalidDataError`) and type errors
(`std::bad_variant_access` escaping from `std::get`). -/
inductive Err where
  | invalidData (msg : String)
  | typeError (msg : String)
deriving DecidableEq

mutual
/-- An abstract YAML node: tagged scalar, sequence or mapping.  The empty
tag stands for an untagged node. -/
inductive YamlNode where
  | scalar (tag : String) (s : Scalar)
  | seq (tag : String) (children : YamlSeq)
  | map (tag : String) (entries : YamlMap)

/-- Children of a YAML sequence. -/
inductive YamlSeq where
  | nil
  | cons (hd : YamlNode) (tl : YamlSeq)

/-- Entries of a YAML mapping: key scalar and value node, in document
order. -/
inductive YamlMap where
  | nil
  | cons (key : Scalar) (v : YamlNode) (rest : YamlMap)
end

/-- Build a `YamlSeq` from a list of nodes. -/
def seqOf : List YamlNode → YamlSeq
  | [] => .nil
  | n :: rest => .cons n (seqOf rest)

/-- The children of a `YamlSeq` as a list. -/
def YamlSeq.toList : YamlSeq → List YamlNode
  | .nil => []
  | .cons n rest => n :: rest.toList

theorem seqOf_toList (l : List YamlNode) : (seqOf l).toList = l := by
  induction l with
  | nil => rfl
  | cons n rest ih => simp [seqOf, YamlSeq.toList, ih]

/-! ## The text emitter (`TextEmitter`, `aamp_text.cpp` lines 328-471)

The emitter threads two pieces of mutable state extracted from the source:
the per-document extra name table (`m_extra_name_table`) and the process-wide
default name table (`GetDefaultNameTable()`), both mutated by `GetName`.  The
pair is threaded explicitly. -/

/-- The pair (extra name table, default name table) threaded through
emission. -/
abbrev EmitSt := NameTable × NameTable

/-- `IsStringType(param.GetType())`: the four string variants (Str32, Str64,
Str256, String).  Modelled from the spec §3.2/§4.4 (the helper lives in
`aamp.h`). -/
def isStringType : Parameter → Bool
  | .str32 _ | .str64 _ | .str256 _ | .str _ => true
  | _ => false

/-- `Parameter::GetStringView()` for string-typed parameters. -/
def getStringView : Parameter → ByteStr
  | .str32 s | .str64 s | .str256 s | .str s => s
  | _ => []

/-- The inner loop of `TextEmitter::BuildExtraNameTable` over one object:
register every string-typed parameter value via `AddNameReference`
(`aamp_text.cpp` lines 355-360). -/
def buildExtraObj (t : NameTable) (o : ParameterObject) : NameTable :=
  o.params.foldl
    (fun t e => if isStringType e.2 then addNameReference t (getStringView e.2) else t) t

mutual
/-- `TextEmitter::BuildExtraNameTable` (`aamp_text.cpp` lines 354-363):
walk the objects of the list (registering string-typed parameter values),
then recurse into the sub-lists. -/
def buildExtraList (t : NameTable) : ParameterList → NameTable
  | .mk objects lists =>
    buildExtraLists (objects.foldl (fun t e => buildExtraObj t e.2) t) lists

/-- Recursion of `BuildExtraNameTable` over the `lists` map. -/
def buildExtraLists (t : NameTable) : PListEntries → NameTable
  | .nil => t
  | .cons _ l rest => buildExtraLists (buildExtraList t l) rest
end

/-- The 64-bit two's complement pattern of a signed integer, as produced by
emitting it in decimal and re-parsing it through the scalar layer
(`EmitInt` on a negative `int`). -/
def toU64 (v : Int) : Nat := (v % (2 ^ 64 : Int)).toNat

/-- `int(value)` for a `u64` value: truncation to the signed 32-bit value
with the same low 32 bits. -/
def toS32 (n : Nat) : Int :=
  if n % 2 ^ 32 < 2 ^ 31 then (n % 2 ^ 32 : Nat) else (n % 2 ^ 32 : Nat) - 2 ^ 32

/-- The scalars emitted by `EmitCurves` for one curve (`aamp_text.cpp`
lines 453-458): `a` and `b` as integers, then the 30 floats. -/
def curveScalars (c : Curve) : List YamlNode :=
  .scalar "" (.int c.a) :: .scalar "" (.int c.b) ::
    c.floats.map (fun bits => .scalar "" (.float bits))

/-- `TextEmitter::EmitParameter` (`aamp_text.cpp` lines 375-399): emit the
value of one parameter, with the custom tag of its variant. -/
def emitParameter : Parameter → YamlNode
  | .b v => .scalar "" (.bool v)
  | .f bits => .scalar "" (.float bits)
  | .i v => .scalar "" (.int (toU64 v))
  | .vec2 x y => .seq "!vec2" (seqOf [.scalar "" (.float x), .scalar "" (.float y)])
  | .vec3 x y z =>
    .seq "!vec3" (seqOf [.scalar "" (.float x), .scalar "" (.float y), .scalar "" (.float z)])
  | .vec4 x y z w =>
    .seq "!vec4" (seqOf [.scalar "" (.float x), .scalar "" (.float y),
      .scalar "" (.float z), .scalar "" (.float w)])
  | .color r g bb a =>
    .seq "!color" (seqOf [.scalar "" (.float r), .scalar "" (.float g),
      .scalar "" (.float bb), .scalar "" (.float a)])
  | .str32 s => .scalar "!str32" (.str s)
  | .str64 s => .scalar "!str64" (.str s)
  | .curve1 c1 => .seq "!curve" (seqOf (curveScalars c1))
  | .curve2 c1 c2 => .seq "!curve" (seqOf (curveScalars c1 ++ curveScalars c2))
  | .curve3 c1 c2 c3 =>
    .seq "!curve" (seqOf (curveScalars c1 ++ curveScalars c2 ++ curveScalars c3))
  | .curve4 c1 c2 c3 c4 =>
    .seq "!curve" (seqOf (curveScalars c1 ++ curveScalars c2 ++ curveScalars c3 ++
      curveScalars c4))
  | .bufInt v => .seq "!buffer_int" (seqOf (v.map (fun x => .scalar "" (.int (toU64 x)))))
  | .bufF32 v => .seq "!buffer_f32" (seqOf (v.map (fun bits => .scalar "" (.float bits))))
  | .str256 s => .scalar "!str256" (.str s)
  | .quat x y z w =>
    .seq "!quat" (seqOf [.scalar "" (.float x), .scalar "" (.float y),
      .scalar "" (.float z), .scalar "" (.float w)])
  | .u32 v => .scalar "!u" (.int v)
  | .bufU32 v => .seq "!buffer_u32" (seqOf (v.map (fun x => .scalar "" (.int x))))
  | .bufBin v => .seq "!buffer_binary" (seqOf (v.map (fun x => .scalar "" (.int x))))
  | .str s => .scalar "" (.str s)

/-- `TextEmitter::EmitName` (`aamp_text.cpp` lines 365-373): consult the
extra name table, then the default table; emit the resolved string, or the
integer hash if both fail.  Both tables record guessed names. -/
def emitName (st : EmitSt) (h index parent : Nat) : Scalar × EmitSt :=
  match getName st.1 h index parent with
  | (some s, extra') => (.str s, (extra', st.2))
  | (none, extra') =>
    match getName st.2 h index parent with
    | (some s, deft') => (.str s, (extra', deft'))
    | (none, deft') => (.int h, (extra', deft'))

/-- The key/value entries emitted by `TextEmitter::EmitParameterObject`
(`aamp_text.cpp` lines 403-407): each key via `EmitName` with the running
0-based index and the object's name as parent, each value via
`EmitParameter`. -/
def emitObjEntries (st : EmitSt) (parent i : Nat) :
    List (Nat × Parameter) → YamlMap × EmitSt
  | [] => (.nil, st)
  | (k, p) :: rest =>
    let key := emitName st k i parent
    let tl := emitObjEntries key.2 parent (i + 1) rest
    (.cons key.1 (emitParameter p) tl.1, tl.2)

/-- `TextEmitter::EmitParameterObject` (`aamp_text.cpp` lines 401-408):
a `!obj`-tagged mapping. -/
def emitObj (st : EmitSt) (parent : Nat) (o : ParameterObject) : YamlNode × EmitSt :=
  let m := emitObjEntries st parent 0 o.params
  (.map "!obj" m.1, m.2)

/-- The `objects` sub-mapping emitted by `TextEmitter::EmitParameterList`
(`aamp_text.cpp` lines 413-421): keys via `EmitName` with the running index
and the list's name as parent; each object is emitted with its own name as
parent. -/
def emitObjsMap (st : EmitSt) (parent i : Nat) :
    List (Nat × ParameterObject) → YamlMap × EmitSt
  | [] => (.nil, st)
  | (k, o) :: rest =>
    let key := emitName st k i parent
    let obj := emitObj key.2 k o
    let tl := emitObjsMap obj.2 parent (i + 1) rest
    (.cons key.1 obj.1 tl.1, tl.2)

mutual
/-- `TextEmitter::EmitParameterList` (`aamp_text.cpp` lines 410-432): a
`!list`-tagged mapping with the two sub-mappings `objects` and `lists`. -/
def emitListNode (st : EmitSt) (parent : Nat) (l : ParameterList) : YamlNode × EmitSt :=
  match l with
  | .mk objects lists =>
    let om := emitObjsMap st parent 0 objects
    let lm := emitListsMap om.2 parent 0 lists
    (.map "!list"
      (.cons (.str (bs "objects")) (.map "" om.1)
        (.cons (.str (bs "lists")) (.map "" lm.1) .nil)), lm.2)

/-- The `lists` sub-mapping emitted by `TextEmitter::EmitParameterList`
(`aamp_text.cpp` lines 423-431): each sub-list is emitted with its own name
as parent. -/
def emitListsMap (st : EmitSt) (parent i : Nat) :
    PListEntries → YamlMap × EmitSt
  | .nil => (.nil, st)
  | .cons k l rest =>
    let key := emitName st k i parent
    let sub := emitListNode key.2 k l
    let tl := emitListsMap sub.2 parent (i + 1) rest
    (.cons key.1 sub.1 tl.1, tl.2)
end

/-- `TextEmitter::EmitParameterIO` (`aamp_text.cpp` lines 434-445): the
`!io`-tagged top mapping with `version`, `type` and `param_root`, the root
list being emitted with `ParamRootKey` as parent. -/
def emitPIO (st : EmitSt) (pio : ParameterIO) : YamlNode × EmitSt :=
  let root := emitListNode st ParamRootKey pio.root
  (.map "!io"
    (.cons (.str (bs "version")) (.scalar "" (.int pio.version))
      (.cons (.str (bs "type")) (.scalar "" (.str pio.type))
        (.cons (.str (bs "param_root")) root.1 .nil))), root.2)

/-- `ParameterIO::ToText` (`aamp_text.cpp` lines 330-350, 468-471): reset the
extra name table, build it from the document's string values, then emit.
The abstract YAML tree stands for the document text; `deft` is the state of
the process-wide default name table at the time of the call. -/
def toTextYaml (deft : NameTable) (pio : ParameterIO) : YamlNode × EmitSt :=
  emitPIO (buildExtraList emptyTable pio.root, deft) pio

example :
    (toTextYaml emptyTable
      ⟨7, bs "xlink", .mk [(10, ⟨[(20, .u32 5)]⟩)] .nil⟩).1 =
    .map "!io"
      (.cons (.str (bs "version")) (.scalar "" (.int 7))
        (.cons (.str (bs "type")) (.scalar "" (.str (bs "xlink")))
          (.cons (.str (bs "param_root"))
            (.map "!list"
              (.cons (.str (bs "objects"))
                (.map ""
                  (.cons (.int 10)
                    (.map "!obj" (.cons (.int 20) (.scalar "!u" (.int 5)) .nil)) .nil))
                (.cons (.str (bs "lists")) (.map "" .nil) .nil)))
            .nil))) := by rfl

/-! ## The text reader (`read` overloads, `aamp_text.cpp` lines 142-326) -/

/-- The result classification used by the shared scalar parser's tag
override hook. -/
inductive TagBasedType where
  | str
  | int
deriving DecidableEq

/-- `RecognizeTag` (`aamp_text.cpp` lines 142-148): `!str32/!str64/!str256`
force a string scalar, `!u` forces an integer scalar. -/
def recognizeTag (tag : String) : Option TagBasedType :=
  if tag = "!str32" ∨ tag = "!str64" ∨ tag = "!str256" then some .str
  else if tag = "!u" then some .int
  else none

/-- `yml::ParseScalar(node, RecognizeTag)`.  Modelled from the spec §4.6
("Scalars with an explicit tag take precedence"): a recognised tag must
agree with the scalar's type; the raw text is not retained in the abstract
scalar, so a tag forcing a different type is modelled as a type error. -/
def parseScalar (tag : String) (s : Scalar) : Except Err Scalar :=
  match recognizeTag tag with
  | some .str =>
    match s with
    | .str _ => .ok s
    | _ => .error (.typeError "tag forces a string scalar")
  | some .int =>
    match s with
    | .int _ => .ok s
    | _ => .error (.typeError "tag forces an integer scalar")
  | none => .ok s

/-- `yml::ParseScalar` on a node expected to hold a scalar value. -/
def parseScalarNode : YamlNode → Except Err Scalar
  | .scalar tag s => parseScalar tag s
  | _ => .error (.invalidData "expected a scalar node")

/-- `std::get<u64>(yml::ParseScalar(node, RecognizeTag))`: the integer
payload, or `std::bad_variant_access` for a non-integer scalar. -/
def getU64 (n : YamlNode) : Except Err Nat := do
  match ← parseScalarNode n with
  | .int v => .ok v
  | _ => .error (.typeError "bad variant access")

/-- `std::get<f64>(...)`: the float payload (an f32 bit pattern). -/
def getF32 (n : YamlNode) : Except Err Nat := do
  match ← parseScalarNode n with
  | .float v => .ok v
  | _ => .error (.typeError "bad variant access")

/-- `ParseIntOrFloat<u32>`: read the integer and truncate to 32 bits. -/
def readU32 (n : YamlNode) : Except Err Nat := do .ok ((← getU64 n) % 2 ^ 32)

/-- `ParseIntOrFloat<int>`: read the integer and truncate to signed 32. -/
def readS32 (n : YamlNode) : Except Err Int := do .ok (toS32 (← getU64 n))

/-- `ParseIntOrFloat<u8>`: read the integer and truncate to 8 bits. -/
def readU8 (n : YamlNode) : Except Err Nat := do .ok ((← getU64 n) % 2 ^ 8)

/-- `Except`-valued `map` over a list, propagating the first error
(`ReadSequenceForBuffer`'s loop). -/
def exMapM (f : α → Except Err β) : List α → Except Err (List β)
  | [] => .ok []
  | x :: rest => do
    let y ← f x
    let ys ← exMapM f rest
    .ok (y :: ys)

/-- `ReadSequenceForNumericalStruct<Vector2f>` (`aamp_text.cpp` lines
177-190): exactly two float fields. -/
def readVec2 (cs : List YamlNode) : Except Err (Nat × Nat) :=
  match cs with
  | [a, b] => do .ok (← getF32 a, ← getF32 b)
  | _ => .error (.invalidData "Unexpected number of children")

/-- `ReadSequenceForNumericalStruct` for the three-float structs. -/
def readVec3 (cs : List YamlNode) : Except Err (Nat × Nat × Nat) :=
  match cs with
  | [a, b, c] => do .ok (← getF32 a, ← getF32 b, ← getF32 c)
  | _ => .error (.invalidData "Unexpected number of children")

/-- `ReadSequenceForNumericalStruct` for the four-float structs
(Vector4f, Color4f, Quatf). -/
def readVec4 (cs : List YamlNode) : Except Err (Nat × Nat × Nat × Nat) :=
  match cs with
  | [a, b, c, d] => do .ok (← getF32 a, ← getF32 b, ← getF32 c, ← getF32 d)
  | _ => .error (.invalidData "Unexpected number of children")

/-- The float-reading loop of `ReadSequenceForCurve`: consume `k` floats. -/
def readFloats : Nat → List YamlNode → Except Err (List Nat × List YamlNode)
  | 0, rest => .ok ([], rest)
  | _ + 1, [] => .error (.invalidData "index out of range")
  | k + 1, n :: rest => do
    let x ← getF32 n
    let r ← readFloats k rest
    .ok (x :: r.1, r.2)

/-- One curve consumed by `ReadSequenceForCurve` (`aamp_text.cpp` lines
201-212): `u32 a`, `u32 b`, then 30 floats. -/
def readCurve (cs : List YamlNode) : Except Err (Curve × List YamlNode) :=
  match cs with
  | a :: b :: rest => do
    let av ← getU64 a
    let bv ← getU64 b
    let r ← readFloats 30 rest
    .ok (⟨av % 2 ^ 32, bv % 2 ^ 32, r.1⟩, r.2)
  | _ => .error (.invalidData "index out of range")

/-- `ScalarToValue` (`aamp_text.cpp` lines 150-169). `FixedSafeString<N>`
construction truncates the payload to at most `N - 1` bytes; modelled from
the spec §3.2 ("a UTF-8 string bounded by N bytes, null-terminated",
"payload length (excluding null) ≤ N−1"; `oead/types.h` is not under
`src/`). -/
def scalarToValue (tag : String) (s : Scalar) : Except Err Parameter :=
  match s with
  | .bool v => .ok (.b v)
  | .str v =>
    if tag = "!str32" then .ok (.str32 (v.take 31))
    else if tag = "!str64" then .ok (.str64 (v.take 63))
    else if tag = "!str256" then .ok (.str256 (v.take 255))
    else .ok (.str v)
  | .int v => if tag = "!u" then .ok (.u32 (v % 2 ^ 32)) else .ok (.i (toS32 v))
  | .float v => .ok (.f v)
  | .null => .error (.invalidData "Unexpected scalar type")

/-- The `!curve` switch of `read(const ryml::NodeRef&, Parameter*)`
(`aamp_text.cpp` lines 225-242): the number of children selects between 1
and 4 curves of 32 elements each; any other count throws `InvalidData`. -/
def curveBranch (cs : List YamlNode) : Except Err (Option Parameter) :=
  if cs.length = 32 then do
    let c1 ← readCurve cs
    .ok (some (.curve1 c1.1))
  else if cs.length = 64 then do
    let c1 ← readCurve cs
    let c2 ← readCurve c1.2
    .ok (some (.curve2 c1.1 c2.1))
  else if cs.length = 96 then do
    let c1 ← readCurve cs
    let c2 ← readCurve c1.2
    let c3 ← readCurve c2.2
    .ok (some (.curve3 c1.1 c2.1 c3.1))
  else if cs.length = 128 then do
    let c1 ← readCurve cs
    let c2 ← readCurve c1.2
    let c3 ← readCurve c2.2
    let c4 ← readCurve c3.2
    .ok (some (.curve4 c1.1 c2.1 c3.1 c4.1))
  else .error (.invalidData "Invalid curve: unexpected number of children")

/-- `read(const ryml::NodeRef&, Parameter*)` (`aamp_text.cpp` lines
214-265): sequences dispatch on the custom tag, scalars go through
`ScalarToValue`, mappings are not parameters (`.ok none` models
`return false`). -/
def readParameter : YamlNode → Except Err (Option Parameter)
  | .seq tag cs0 =>
    let cs := cs0.toList
    if tag = "!vec2" then do
      let v ← readVec2 cs
      .ok (some (.vec2 v.1 v.2))
    else if tag = "!vec3" then do
      let v ← readVec3 cs
      .ok (some (.vec3 v.1 v.2.1 v.2.2))
    else if tag = "!vec4" then do
      let v ← readVec4 cs
      .ok (some (.vec4 v.1 v.2.1 v.2.2.1 v.2.2.2))
    else if tag = "!color" then do
      let v ← readVec4 cs
      .ok (some (.color v.1 v.2.1 v.2.2.1 v.2.2.2))
    else if tag = "!curve" then curveBranch cs
    else if tag = "!buffer_int" then do
      let v ← exMapM readS32 cs
      .ok (some (.bufInt v))
    else if tag = "!buffer_f32" then do
      let v ← exMapM getF32 cs
      .ok (some (.bufF32 v))
    else if tag = "!buffer_u32" then do
      let v ← exMapM readU32 cs
      .ok (some (.bufU32 v))
    else if tag = "!buffer_binary" then do
      let v ← exMapM readU8 cs
      .ok (some (.bufBin v))
    else if tag = "!quat" then do
      let v ← readVec4 cs
      .ok (some (.quat v.1 v.2.1 v.2.2.1 v.2.2.2))
    else .error (.invalidData "Unexpected sequence tag (or no tag)")
  | .scalar tag s => do .ok (some (← scalarToValue tag (← parseScalar tag s)))
  | .map _ _ => .ok none

/-- `ParseScalarKey` plus the `Name` map-key construction of `ReadMap`
(`aamp_text.cpp` lines 267-280): an integer key is truncated to `u32`, a
string key is hashed with CRC32 (spec §3.3: "every map key is a u32 CRC32
of the original name"); any other key scalar throws. -/
def parseKeyHash (sc : Scalar) : Except Err Nat :=
  match sc with
  | .int v => .ok (v % 2 ^ 32)
  | .str s => .ok (crc32 s)
  | _ => .error (.invalidData "Unexpected key scalar type")

/-- `map.emplace(key, value)` on an insertion-ordered association list:
keep an existing entry, else append. -/
def emplaceL (m : List (Nat × α)) (k : Nat) (v : α) : List (Nat × α) :=
  if (m.find? (fun e => e.1 == k)).isSome then m else m ++ [(k, v)]

/-- `ReadMap<Parameter>` (`aamp_text.cpp` lines 267-280): fold the entries,
parsing each key and value; a child whose `read` returns `false` makes the
extraction operator throw. -/
def readMapParams : YamlMap → List (Nat × Parameter) →
    Except Err (List (Nat × Parameter))
  | .nil, acc => .ok acc
  | .cons key node rest, acc => do
    let h ← parseKeyHash key
    match ← readParameter node with
    | some p => readMapParams rest (emplaceL acc h p)
    | none => .error (.invalidData "failed to read node")

/-- `read(const ryml::NodeRef&, ParameterObject*)` (`aamp_text.cpp` lines
282-290). -/
def readPObject : YamlNode → Except Err (Option ParameterObject)
  | .map _ entries => do .ok (some ⟨← readMapParams entries []⟩)
  | _ => .ok none

/-- `ReadMap<ParameterObject>` over the `objects` sub-mapping. -/
def readMapObjects : YamlMap → List (Nat × ParameterObject) →
    Except Err (List (Nat × ParameterObject))
  | .nil, acc => .ok acc
  | .cons key node rest, acc => do
    let h ← parseKeyHash key
    match ← readPObject node with
    | some o => readMapObjects rest (emplaceL acc h o)
    | none => .error (.invalidData "failed to read node")

/-- Key membership in a `PListEntries` map. -/
def plHas : PListEntries → Nat → Bool
  | .nil, _ => false
  | .cons k _ rest, h => k == h || plHas rest h

/-- Append an entry at the end of a `PListEntries` map. -/
def plApp : PListEntries → Nat → ParameterList → PListEntries
  | .nil, k, v => .cons k v .nil
  | .cons a b rest, k, v => .cons a b (plApp rest k v)

/-- `emplace` on the `lists` map. -/
def emplacePL (m : PListEntries) (k : Nat) (v : ParameterList) : PListEntries :=
  if plHas m k then m else plApp m k v

/-- `node["name"]` / `node.has_child("name")`: find the value of the entry
whose key text equals the given string.  An integer key renders as decimal
digits and can never equal the letter-only names looked up this way, so
matching string-scalar keys is faithful. -/
def mapFindStr : YamlMap → ByteStr → Option YamlNode
  | .nil, _ => none
  | .cons (.str k) v rest, s => if k = s then some v else mapFindStr rest s
  | .cons _ _ rest, s => mapFindStr rest s

/-- The entries a `ReadMap` iterates over: the children of a mapping node
(a non-mapping node has no keyed children). -/
def entriesOf : YamlNode → YamlMap
  | .map _ e => e
  | _ => .nil

mutual
/-- Node count of a YAML node, used as recursion fuel for the reader. -/
def ySizeN : YamlNode → Nat
  | .scalar _ _ => 1
  | .seq _ c => 1 + ySizeS c
  | .map _ m => 1 + ySizeM m

/-- Node count of a sequence's children. -/
def ySizeS : YamlSeq → Nat
  | .nil => 1
  | .cons n rest => 1 + ySizeN n + ySizeS rest

/-- Node count of a mapping's entries. -/
def ySizeM : YamlMap → Nat
  | .nil => 1
  | .cons _ v rest => 1 + ySizeN v + ySizeM rest
end

mutual
/-- `read(const ryml::NodeRef&, ParameterList*)` (`aamp_text.cpp` lines
292-301): a mapping with `objects` and `lists` children; `.ok none` models
`return false`.  The C++ recursion is bounded only by the call stack; here
an explicit fuel bounds it (the spec §5 has parsers bound recursion depth),
and the caller supplies the node count, which the recursion never
exhausts. -/
def readPListF : Nat → YamlNode → Except Err (Option ParameterList)
  | 0, _ => .error (.invalidData "Recursion depth exceeded")
  | fuel + 1, n =>
    match n with
    | .map _ entries =>
      match mapFindStr entries (bs "objects"), mapFindStr entries (bs "lists") with
      | some objsNode, some listsNode => do
        let objs ← readMapObjects (entriesOf objsNode) []
        let lsts ← readListsMapF fuel (entriesOf listsNode) .nil
        .ok (some (.mk objs lsts))
      | _, _ => .ok none
    | _ => .ok none

/-- `ReadMap<ParameterList>` over the `lists` sub-mapping. -/
def readListsMapF : Nat → YamlMap → PListEntries → Except Err PListEntries
  | 0, _, _ => .error (.invalidData "Recursion depth exceeded")
  | _ + 1, .nil, acc => .ok acc
  | fuel + 1, .cons key node rest, acc => do
    let h ← parseKeyHash key
    match ← readPListF fuel node with
    | some l => readListsMapF fuel rest (emplacePL acc h l)
    | none => .error (.invalidData "failed to read node")
end

/-- `read(const ryml::NodeRef&, ParameterIO*)` (`aamp_text.cpp` lines
303-318): a mapping with `version`, `type` and `param_root`; the version is
read as `u32`, the type as a string scalar, `param_root` as a
`ParameterList`. -/
def readPIO (n : YamlNode) : Except Err (Option ParameterIO) :=
  match n with
  | .map _ entries =>
    match mapFindStr entries (bs "version"), mapFindStr entries (bs "type"),
        mapFindStr entries (bs "param_root") with
    | some vn, some tn, some rn => do
      let ver ← readU32 vn
      let ty ←
        match ← parseScalarNode tn with
        | .str s => Except.ok s
        | _ => Except.error (.typeError "bad variant access")
      match ← readPListF (ySizeN rn) rn with
      | some root => .ok (some ⟨ver, ty, root⟩)
      | none => .error (.invalidData "failed to read node")
    | _, _, _ => .ok none
  | _ => .ok none

/-- `ParameterIO::FromText` (`aamp_text.cpp` lines 320-326) on the abstract
YAML tree: `tree.rootref() >> pio` throws when `read` returns `false`. -/
def fromTextYaml (n : YamlNode) : Except Err ParameterIO :=
  match readPIO n with
  | .ok (some pio) => .ok pio
  | .ok none => .error (.invalidData "failed to read node")
  | .error e => .error e

/-! ## Well-formedness

The C++ type invariants, made explicit on the model: machine integers are in
range, byte strings hold bytes, curves carry exactly 30 floats, fixed-size
strings respect their capacity, map keys are `u32` values without
duplicates. -/

/-- Every element is a byte. -/
def wfByteStr (s : ByteStr) : Bool := s.all (· < 2 ^ 8)

/-- Key lists of the ordered maps have no duplicates. -/
def nodupKeys : List Nat → Bool
  | [] => true
  | k :: rest => !(rest.contains k) && nodupKeys rest

/-- A `Curve` as stored by the C++ type: `u32 a`, `u32 b` and exactly 30
f32 values. -/
def wfCurve (c : Curve) : Bool :=
  c.a < 2 ^ 32 && c.b < 2 ^ 32 && c.floats.length == 30 && c.floats.all (· < 2 ^ 32)

/-- The C++ type invariants of one parameter value. -/
def wfParam : Parameter → Bool
  | .b _ => true
  | .f bits => bits < 2 ^ 32
  | .i v => -2 ^ 31 ≤ v && v < 2 ^ 31
  | .vec2 x y => x < 2 ^ 32 && y < 2 ^ 32
  | .vec3 x y z => x < 2 ^ 32 && y < 2 ^ 32 && z < 2 ^ 32
  | .vec4 x y z w => x < 2 ^ 32 && y < 2 ^ 32 && z < 2 ^ 32 && w < 2 ^ 32
  | .color r g bb a => r < 2 ^ 32 && g < 2 ^ 32 && bb < 2 ^ 32 && a < 2 ^ 32
  | .str32 s => wfByteStr s && s.length ≤ 31
  | .str64 s => wfByteStr s && s.length ≤ 63
  | .curve1 c1 => wfCurve c1
  | .curve2 c1 c2 => wfCurve c1 && wfCurve c2
  | .curve3 c1 c2 c3 => wfCurve c1 && wfCurve c2 && wfCurve c3
  | .curve4 c1 c2 c3 c4 => wfCurve c1 && wfCurve c2 && wfCurve c3 && wfCurve c4
  | .bufInt v => v.all (fun x => -2 ^ 31 ≤ x && x < 2 ^ 31)
  | .bufF32 v => v.all (· < 2 ^ 32)
  | .str256 s => wfByteStr s && s.length ≤ 255
  | .quat x y z w => x < 2 ^ 32 && y < 2 ^ 32 && z < 2 ^ 32 && w < 2 ^ 32
  | .u32 v => v < 2 ^ 32
  | .bufU32 v => v.all (· < 2 ^ 32)
  | .bufBin v => v.all (· < 2 ^ 8)
  | .str s => wfByteStr s

/-- Well-formed parameter map: `u32` keys without duplicates, well-formed
values. -/
def wfParams (l : List (Nat × Parameter)) : Bool :=
  l.all (fun e => e.1 < 2 ^ 32 && wfParam e.2) && nodupKeys (l.map (·.1))

/-- Well-formed object. -/
def wfObj (o : ParameterObject) : Bool := wfParams o.params

/-- Keys of a `lists` map. -/
def plKeys : PListEntries → List Nat
  | .nil => []
  | .cons k _ rest => k :: plKeys rest

mutual
/-- Well-formed parameter list: both maps have `u32` keys without
duplicates, and all contents are well-formed. -/
def wfList : ParameterList → Bool
  | .mk objects lists =>
    objects.all (fun e => e.1 < 2 ^ 32 && wfObj e.2) &&
      nodupKeys (objects.map (·.1)) &&
      wfLists lists && nodupKeys (plKeys lists)

/-- Well-formedness of the entries of a `lists` map. -/
def wfLists : PListEntries → Bool
  | .nil => true
  | .cons k l rest => k < 2 ^ 32 && wfList l && wfLists rest
end

/-- Well-formed `ParameterIO`: a `u32` version, a byte-string type and a
well-formed root list. -/
def wfPIO (pio : ParameterIO) : Bool :=
  pio.version < 2 ^ 32 && wfByteStr pio.type && wfList pio.root

/-- The invariant of every reachable `NameTable`: each stored name hashes
to its key.  Seeded names and `AddNameReference` entries are inserted at
their own CRC32, and `AddName` is only called on a candidate whose CRC32
matched the queried hash. -/
def tableInv (t : NameTable) : Bool :=
  (t.names ++ t.owned_names).all (fun e => crc32 e.2 == e.1)

/-! ## Basic reader lemmas -/

theorem exbind_ok (x : α) (f : α → Except Err β) : (Except.ok x >>= f) = f x := rfl

theorem exbind_err (e : Err) (f : α → Except Err β) :
    (Except.error e >>= f : Except Err β) = .error e := rfl

theorem getU64_int (v : Nat) : getU64 (.scalar "" (.int v)) = .ok v := rfl

theorem getF32_float (v : Nat) : getF32 (.scalar "" (.float v)) = .ok v := rfl

theorem readFloats_emit (xs : List Nat) (rest : List YamlNode) :
    readFloats xs.length
      (xs.map (fun bits => YamlNode.scalar "" (.float bits)) ++ rest) =
      .ok (xs, rest) := by
  induction xs with
  | nil => rfl
  | cons x t ih =>
    simp [List.map_cons, List.length_cons, List.cons_append, readFloats,
      getF32_float, exbind_ok, List.append_eq, ih]

theorem curveScalars_length (c : Curve) :
    (curveScalars c).length = 2 + c.floats.length := by
  simp [curveScalars]
  omega

theorem readCurve_emit (c : Curve) (rest : List YamlNode) (hc : wfCurve c = true) :
    readCurve (curveScalars c ++ rest) = .ok (c, rest) := by
  have h := hc
  simp only [wfCurve, Bool.and_eq_true, beq_iff_eq, decide_eq_true_eq] at h
  obtain ⟨⟨⟨ha, hb⟩, hlen⟩, -⟩ := h
  have h30 : readFloats 30
      (c.floats.map (fun bits => YamlNode.scalar "" (.float bits)) ++ rest) =
      .ok (c.floats, rest) := by
    rw [← hlen]; exact readFloats_emit c.floats rest
  simp only [curveScalars, List.cons_append, readCurve, getU64_int, exbind_ok, h30,
    Nat.mod_eq_of_lt ha, Nat.mod_eq_of_lt hb]

theorem readParameter_curve (s : YamlSeq) :
    readParameter (.seq "!curve" s) = curveBranch s.toList := rfl

/--
**C2.** Parsing a YAML `!curve` sequence as a `Parameter` yields `Curve[K]`
exactly when the sequence has `32·K` elements, for `K ∈ {1, 2, 3, 4}`
(serialised curves: 32 elements give `Curve[1]`, 64 give `Curve[2]`, 96 give
`Curve[3]`, 128 give `Curve[4]`), and throws `InvalidData` for every other
element count — regardless of the elements themselves, since the length
switch precedes any element access.
-/
theorem C2_curve_length_selection :
    (∀ cs : List YamlNode, cs.length ≠ 32 → cs.length ≠ 64 → cs.length ≠ 96 →
      cs.length ≠ 128 →
      readParameter (.seq "!curve" (seqOf cs)) =
        .error (.invalidData "Invalid curve: unexpected number of children")) ∧
    (∀ c1 : Curve, wfCurve c1 = true →
      (curveScalars c1).length = 1 * 32 ∧
      readParameter (.seq "!curve" (seqOf (curveScalars c1))) =
        .ok (some (.curve1 c1))) ∧
    (∀ c1 c2 : Curve, wfCurve c1 = true → wfCurve c2 = true →
      (curveScalars c1 ++ curveScalars c2).length = 2 * 32 ∧
      readParameter (.seq "!curve" (seqOf (curveScalars c1 ++ curveScalars c2))) =
        .ok (some (.curve2 c1 c2))) ∧
    (∀ c1 c2 c3 : Curve, wfCurve c1 = true → wfCurve c2 = true → wfCurve c3 = true →
      (curveScalars c1 ++ curveScalars c2 ++ curveScalars c3).length = 3 * 32 ∧
      readParameter (.seq "!curve"
          (seqOf (curveScalars c1 ++ curveScalars c2 ++ curveScalars c3))) =
        .ok (some (.curve3 c1 c2 c3))) ∧
    (∀ c1 c2 c3 c4 : Curve, wfCurve c1 = true → wfCurve c2 = true →
      wfCurve c3 = true → wfCurve c4 = true →
      (curveScalars c1 ++ curveScalars c2 ++ curveScalars c3 ++
        curveScalars c4).length = 4 * 32 ∧
      readParameter (.seq "!curve"
          (seqOf (curveScalars c1 ++ curveScalars c2 ++ curveScalars c3 ++
            curveScalars c4))) =
        .ok (some (.curve4 c1 c2 c3 c4))) := by
  have flen : ∀ c : Curve, wfCurve c = true → c.floats.length = 30 := by
    intro c hc
    simp only [wfCurve, Bool.and_eq_true, beq_iff_eq] at hc
    exact hc.1.2
  refine ⟨?_, ?_, ?_, ?_, ?_⟩
  · intro cs h32 h64 h96 h128
    rw [readParameter_curve, seqOf_toList]
    simp [curveBranch, h32, h64, h96, h128]
  · intro c1 hc1
    have hl : (curveScalars c1).length = 32 := by
      simp [curveScalars_length, flen c1 hc1]
    refine ⟨by simpa using hl, ?_⟩
    have e1 : readCurve (curveScalars c1) = .ok (c1, []) := by
      simpa using readCurve_emit c1 [] hc1
    rw [readParameter_curve, seqOf_toList]
    simp [curveBranch, hl, e1, exbind_ok]
  · intro c1 c2 hc1 hc2
    have hl : (curveScalars c1 ++ curveScalars c2).length = 64 := by
      simp [curveScalars_length, flen c1 hc1, flen c2 hc2]
    refine ⟨by simpa using hl, ?_⟩
    have e1 : readCurve (curveScalars c1 ++ curveScalars c2) =
        .ok (c1, curveScalars c2) := readCurve_emit c1 _ hc1
    have e2 : readCurve (curveScalars c2) = .ok (c2, []) := by
      simpa using readCurve_emit c2 [] hc2
    rw [readParameter_curve, seqOf_toList]
    simp [curveBranch, hl, e1, e2, exbind_ok]
  · intro c1 c2 c3 hc1 hc2 hc3
    have hl : (curveScalars c1 ++ curveScalars c2 ++ curveScalars c3).length = 96 := by
      simp [curveScalars_length, flen c1 hc1, flen c2 hc2, flen c3 hc3]
    refine ⟨by simpa using hl, ?_⟩
    have e1 : readCurve (curveScalars c1 ++ (curveScalars c2 ++ curveScalars c3)) =
        .ok (c1, curveScalars c2 ++ curveScalars c3) := readCurve_emit c1 _ hc1
    have e2 : readCurve (curveScalars c2 ++ curveScalars c3) =
        .ok (c2, curveScalars c3) := readCurve_emit c2 _ hc2
    have e3 : readCurve (curveScalars c3) = .ok (c3, []) := by
      simpa using readCurve_emit c3 [] hc3
    rw [readParameter_curve, seqOf_toList]
    unfold curveBranch
    rw [hl, if_neg (by decide), if_neg (by decide), if_pos (by decide)]
    simp only [List.append_assoc, e1, e2, e3, exbind_ok]
  · intro c1 c2 c3 c4 hc1 hc2 hc3 hc4
    have hl : (curveScalars c1 ++ curveScalars c2 ++ curveScalars c3 ++
        curveScalars c4).length = 128 := by
      simp [curveScalars_length, flen c1 hc1, flen c2 hc2, flen c3 hc3, flen c4 hc4]
    refine ⟨by simpa using hl, ?_⟩
    have e1 : readCurve
        (curveScalars c1 ++ (curveScalars c2 ++ (curveScalars c3 ++ curveScalars c4))) =
        .ok (c1, curveScalars c2 ++ (curveScalars c3 ++ curveScalars c4)) :=
      readCurve_emit c1 _ hc1
    have e2 : readCurve (curveScalars c2 ++ (curveScalars c3 ++ curveScalars c4)) =
        .ok (c2, curveScalars c3 ++ curveScalars c4) := readCurve_emit c2 _ hc2
    have e3 : readCurve (curveScalars c3 ++ curveScalars c4) =
        .ok (c3, curveScalars c4) := readCurve_emit c3 _ hc3
    have e4 : readCurve (curveScalars c4) = .ok (c4, []) := by
      simpa using readCurve_emit c4 [] hc4
    rw [readParameter_curve, seqOf_toList]
    unfold curveBranch
    rw [hl, if_neg (by decide), if_neg (by decide), if_neg (by decide),
      if_pos (by decide)]
    simp only [List.append_assoc, e1, e2, e3, e4, exbind_ok]

/-- A concrete all-zero curve used by witnesses. -/
def zeroCurve : Curve := ⟨1, 2, List.replicate 30 0⟩

/-- 48 dummy scalar children. -/
def dummy48 : List YamlNode := List.replicate 48 (.scalar "" (.int 0))

/-- Witness for C2: a 48-element `!curve` sequence throws `InvalidData`, and
a 64-element one parses as `Curve[2]`. -/
theorem C2_curve_length_selection_witness :
    readParameter (.seq "!curve" (seqOf dummy48)) =
      .error (.invalidData "Invalid curve: unexpected number of children") ∧
    ((curveScalars zeroCurve ++ curveScalars zeroCurve).length = 2 * 32 ∧
      readParameter (.seq "!curve"
          (seqOf (curveScalars zeroCurve ++ curveScalars zeroCurve))) =
        .ok (some (.curve2 zeroCurve zeroCurve))) :=
  ⟨C2_curve_length_selection.1 dummy48 (by decide) (by decide) (by decide) (by decide),
   C2_curve_length_selection.2.2.1 zeroCurve zeroCurve (by decide) (by decide)⟩

/--
**C6.** A `Parameter` holding the U32 value `0xFFFFFFFF` is emitted as the
integer scalar `4294967295` tagged `!u`, and parsing a `!u`-tagged integer
scalar yields the `U32` variant (never `Int32`), so the variant tag survives
the text round-trip.
-/
theorem C6_u32_preservation :
    emitParameter (.u32 0xFFFFFFFF) = .scalar "!u" (.int 4294967295) ∧
    (∀ n : Nat, readParameter (.scalar "!u" (.int n)) = .ok (some (.u32 (n % 2 ^ 32)))) ∧
    readParameter (.scalar "!u" (.int 4294967295)) = .ok (some (.u32 0xFFFFFFFF)) := by
  refine ⟨rfl, ?_, by rfl⟩
  intro n
  rfl

/-! ## NameTable lemmas -/

theorem lookupL_append_none {a : List (Nat × ByteStr)} (b : List (Nat × ByteStr))
    (k : Nat) (h : lookupL a k = none) : lookupL (a ++ b) k = lookupL b k := by
  simp only [lookupL, List.find?_append]
  simp only [lookupL, Option.map_eq_none'] at h
  rw [h]
  rfl

theorem lookupL_single (k : Nat) (n : ByteStr) :
    lookupL [(k, n)] k = some n := by
  simp [lookupL]

/-- The table returned by `AddName` maps the hash to the returned string and
leaves the other fields untouched. -/
theorem addName_spec (t : NameTable) (h : Nat) (n : ByteStr) :
    lookupL (addName t h n).1.owned_names h = some (addName t h n).2 ∧
    (addName t h n).1.names = t.names ∧
    (addName t h n).1.numbered_names = t.numbered_names := by
  unfold addName
  cases he : lookupL t.owned_names h with
  | some ex => exact ⟨he, rfl, rfl⟩
  | none =>
    refine ⟨?_, rfl, rfl⟩
    rw [lookupL_append_none _ _ he, lookupL_single]

/-- A successful `test_names` call records the returned name in
`owned_names` and changes nothing else. -/
theorem testNames_spec (t : NameTable) (h i : Nat) (pre : ByteStr)
    (r : NameTable × ByteStr) (hr : testNames t h i pre = some r) :
    lookupL r.1.owned_names h = some r.2 ∧
    r.1.names = t.names ∧ r.1.numbered_names = t.numbered_names := by
  unfold testNames at hr
  cases hf : (codeCandidates pre i).find? (fun c => crc32 c == h) with
  | none => rw [hf] at hr; exact absurd hr (by simp)
  | some c =>
    rw [hf] at hr
    have : r = addName t h c := by injection hr with h'; exact h'.symm
    rw [this]
    exact addName_spec t h c

/-- A successful suffix-phase call records the returned name in
`owned_names` and changes nothing else. -/
theorem suffixPhase_spec (t : NameTable) (h i : Nat) (parentName : ByteStr)
    (sfxs : List ByteStr) (r : NameTable × ByteStr)
    (hr : suffixPhase t h i parentName sfxs = some r) :
    lookupL r.1.owned_names h = some r.2 ∧
    r.1.names = t.names ∧ r.1.numbered_names = t.numbered_names := by
  induction sfxs with
  | nil => exact absurd hr (by simp [suffixPhase])
  | cons sfx rest ih =>
    unfold suffixPhase at hr
    by_cases hs : sfx.isSuffixOf parentName
    · rw [if_pos hs] at hr
      cases ht : testNames t h i (dropSfx parentName sfx) with
      | some r' =>
        rw [ht] at hr
        have : r' = r := by injection hr
        exact this ▸ testNames_spec t h i _ r' ht
      | none => rw [ht] at hr; exact ih hr
    · rw [if_neg hs] at hr; exact ih hr

/-- A successful numbered-names scan records the returned name in
`owned_names` and changes nothing else; a failed scan leaves the table
untouched. -/
theorem numberedScan_spec (t : NameTable) (h i : Nat) :
    (∀ s t', numberedScan t h i = (some s, t') →
      lookupL t'.owned_names h = some s ∧
      t'.names = t.names ∧ t'.numbered_names = t.numbered_names) ∧
    (∀ t', numberedScan t h i = (none, t') → t' = t) := by
  unfold numberedScan
  cases hf : (t.numbered_names.flatMap
      (fun f => (List.range (i + 2)).map (fun j => fmtApply f j))).find?
      (fun c => crc32 c == h) with
  | none =>
    constructor
    · intro s t' he; exact absurd he (by simp)
    · intro t' he; injection he with h1 h2; exact h2.symm
  | some c =>
    constructor
    · intro s t' he
      simp only at he
      have h1 : some (addName t h c).2 = some s := congrArg Prod.fst he
      have h2 : (addName t h c).1 = t' := congrArg Prod.snd he
      have hs : (addName t h c).2 = s := by injection h1
      obtain ⟨a1, a2, a3⟩ := addName_spec t h c
      rw [← h2, ← hs]
      exact ⟨a1, a2, a3⟩
    · intro t' he
      simp only at he
      exact absurd (congrArg Prod.fst he) (by simp)

/--
**C3.** `GetName(crc32("Foo_1"), 1, crc32("FooList"))` returns `"Foo_1"`
whenever the `names` dictionary maps `crc32("FooList")` to `"FooList"` and
neither `names` nor `owned_names` has an entry for `crc32("Foo_1")`:
resolution goes through stripping the `"List"` suffix and the `"%s_%d"`
pattern at `i = index`.
-/
theorem C3_getName_suffix_strip (t : NameTable)
    (hp : lookupL t.names (crc32 (bs "FooList")) = some (bs "FooList"))
    (h1 : lookupL t.names (crc32 (bs "Foo_1")) = none)
    (h2 : lookupL t.owned_names (crc32 (bs "Foo_1")) = none) :
    (getName t (crc32 (bs "Foo_1")) 1 (crc32 (bs "FooList"))).1 =
      some (bs "Foo_1") := by
  have f1 : (codeCandidates (bs "FooList") 1).find?
      (fun c => crc32 c == crc32 (bs "Foo_1")) = none := by decide
  have f2 : (codeCandidates (bs "Children") 1).find?
      (fun c => crc32 c == crc32 (bs "Foo_1")) = none := by decide
  have f3 : (codeCandidates (dropSfx (bs "FooList") (bs "List")) 1).find?
      (fun c => crc32 c == crc32 (bs "Foo_1")) = some (bs "Foo_1") := by decide
  have s1 : (bs "s").isSuffixOf (bs "FooList") = false := by decide
  have s2 : (bs "es").isSuffixOf (bs "FooList") = false := by decide
  have s3 : (bs "List").isSuffixOf (bs "FooList") = true := by decide
  unfold getName
  rw [h1, h2, hp]
  simp only [testNames, f1, f2, suffixPhase, s1, s2, s3, f3, if_true, if_false,
    Bool.false_eq_true, addName, h2]

/-- A concrete table for the C3 witness. -/
def t3w : NameTable := ⟨[(crc32 (bs "FooList"), bs "FooList")], [], []⟩

/-- Witness for C3 at a concrete table. -/
theorem C3_getName_suffix_strip_witness :
    lookupL t3w.names (crc32 (bs "FooList")) = some (bs "FooList") ∧
    lookupL t3w.names (crc32 (bs "Foo_1")) = none ∧
    lookupL t3w.owned_names (crc32 (bs "Foo_1")) = none ∧
    (getName t3w (crc32 (bs "Foo_1")) 1 (crc32 (bs "FooList"))).1 =
      some (bs "Foo_1") :=
  ⟨by decide, by decide, by decide,
    C3_getName_suffix_strip t3w (by decide) (by decide) (by decide)⟩

/--
**C4.** If `GetName(hash, index, parent)` returns a name, then the identical
call on the resulting table returns the same name (and the same table): a
successfully guessed name was inserted into `owned_names` and is found
there, and a name found in `names`/`owned_names` leaves the table unchanged.
(The O(1)-work part of the spec's invariant is a time bound outside the
functional model.)
-/
theorem C4_getName_memoized (t : NameTable) (hash index parent : Nat)
    (s : ByteStr) (t' : NameTable)
    (hc : getName t hash index parent = (some s, t')) :
    getName t' hash index parent = (some s, t') := by
  have fin : ∀ u : NameTable, lookupL u.names hash = none →
      lookupL u.owned_names hash = some s →
      getName u hash index parent = (some s, u) := by
    intro u g1 g2
    unfold getName
    rw [g1, g2]
  unfold getName at hc
  split at hc
  · -- found in names: table unchanged
    rename_i s0 heq
    injection hc with e1 e2
    injection e1 with e1
    subst e1; subst e2
    unfold getName
    rw [heq]
  · rename_i heq
    split at hc
    · -- found in owned_names: table unchanged
      rename_i s0 ho
      injection hc with e1 e2
      injection e1 with e1
      subst e1; subst e2
      unfold getName
      rw [heq, ho]
    · rename_i ho
      split at hc
      · rename_i pn hp
        split at hc
        · -- test_names on the parent name succeeded
          rename_i r h1
          have spec := testNames_spec t hash index pn r h1
          injection hc with e1 e2
          injection e1 with e1
          subst e1; subst e2
          exact fin r.1 (by rw [spec.2.1]; exact heq) spec.1
        · rename_i h1
          split at hc
          · -- test_names on "Children" succeeded
            rename_i r h2
            have spec := testNames_spec t hash index _ r h2
            injection hc with e1 e2
            injection e1 with e1
            subst e1; subst e2
            exact fin r.1 (by rw [spec.2.1]; exact heq) spec.1
          · rename_i h2
            split at hc
            · -- the suffix phase succeeded
              rename_i r h3
              have spec := suffixPhase_spec t hash index pn _ r h3
              injection hc with e1 e2
              injection e1 with e1
              subst e1; subst e2
              exact fin r.1 (by rw [spec.2.1]; exact heq) spec.1
            · rename_i h3
              obtain ⟨o1, o2, o3⟩ := (numberedScan_spec t hash index).1 s t' hc
              exact fin t' (by rw [o2]; exact heq) o1
      · rename_i hp
        obtain ⟨o1, o2, o3⟩ := (numberedScan_spec t hash index).1 s t' hc
        exact fin t' (by rw [o2]; exact heq) o1

/-- A concrete table for the C4 witness (the guessing path: the first call
inserts `"Foo1"` into `owned_names`, the second finds it there). -/
def t4w : NameTable := ⟨[(crc32 (bs "Foo"), bs "Foo")], [], []⟩

/-- The table after the first `GetName` call of the C4 witness. -/
def t4w' : NameTable :=
  ⟨[(crc32 (bs "Foo"), bs "Foo")], [(crc32 (bs "Foo1"), bs "Foo1")], []⟩

/-- Witness for C4: a first call that guesses a name, and the identical
second call returning the same string. -/
theorem C4_getName_memoized_witness :
    getName t4w (crc32 (bs "Foo1")) 1 (crc32 (bs "Foo")) = (some (bs "Foo1"), t4w') ∧
    getName t4w' (crc32 (bs "Foo1")) 1 (crc32 (bs "Foo")) = (some (bs "Foo1"), t4w') :=
  ⟨by decide,
   C4_getName_memoized t4w (crc32 (bs "Foo1")) 1 (crc32 (bs "Foo"))
     (bs "Foo1") t4w' (by decide)⟩

/-! ## C5: candidate enumeration order -/

/-- A four-byte prefix with `crc32 (collP ++ "2") = crc32 (collP ++ "_1")`:
on this input the first CRC32 match differs between the source's
enumeration order (outer loop over `i`) and the order stated by the spec
(outer loop over the formats). -/
def collP : ByteStr := [53, 25, 62, 109]

/-- The colliding hash. -/
def collH : Nat := crc32 (collP ++ bs "_1")

/-- A table resolving parent hash `0` to `collP`. -/
def t5w : NameTable := ⟨[(0, collP)], [], []⟩

/--
**C5, counterexample.** The claim states that `GetName` enumerates the
candidates with the outer loop over the six formats and the inner loop over
`i ∈ {index, index + 1}`, returning the first CRC32 match.  At this input
the parent hash resolves to `collP`, the spec-order first match is
`collP ++ "2"`, but `GetName` returns `collP ++ "_1"`: the source iterates
`i` in the outer loop and the formats in the inner loop.
-/
theorem C5_counterexample :
    lookupL t5w.names 0 = some collP ∧
    lookupL t5w.names collH = none ∧
    lookupL t5w.owned_names collH = none ∧
    (specCandidates collP 1).find? (fun c => crc32 c == collH) =
      some (collP ++ bs "2") ∧
    getName t5w collH 1 0 =
      (some (collP ++ bs "_1"),
        { t5w with owned_names := [(collH, collP ++ bs "_1")] }) ∧
    collP ++ bs "2" ≠ collP ++ bs "_1" := by
  refine ⟨by decide, by decide, by decide, by decide, by decide, by decide⟩

/--
**C5, amended.** When the hash is in neither dictionary and the parent hash
resolves to a parent name, `GetName` enumerates the candidates with the
*outer* loop over `i ∈ {index, index + 1}` and the *inner* loop over the six
format patterns in the listed order, and returns — after inserting it into
`owned_names` — the first candidate whose CRC32 equals the hash.
-/
theorem C5_amended_code_order (t : NameTable) (hash index parent : Nat)
    (pn c : ByteStr)
    (h1 : lookupL t.names hash = none) (h2 : lookupL t.owned_names hash = none)
    (hp : lookupL t.names parent = some pn)
    (hf : (codeCandidates pn index).find? (fun cd => crc32 cd == hash) = some c) :
    getName t hash index parent =
      (some c, { t with owned_names := t.owned_names ++ [(hash, c)] }) := by
  unfold getName
  rw [h1, h2, hp]
  simp only [testNames, hf, addName, h2]

/-- A concrete table for the C5 witness. -/
def t5v : NameTable := ⟨[(crc32 (bs "Bar"), bs "Bar")], [], []⟩

/-- Witness for the amended C5: `"Bar1"` is the first code-order candidate
and is returned and recorded. -/
theorem C5_amended_code_order_witness :
    lookupL t5v.names (crc32 (bs "Bar1")) = none ∧
    lookupL t5v.owned_names (crc32 (bs "Bar1")) = none ∧
    lookupL t5v.names (crc32 (bs "Bar")) = some (bs "Bar") ∧
    (codeCandidates (bs "Bar") 1).find?
      (fun cd => crc32 cd == crc32 (bs "Bar1")) = some (bs "Bar1") ∧
    getName t5v (crc32 (bs "Bar1")) 1 (crc32 (bs "Bar")) =
      (some (bs "Bar1"),
        { t5v with owned_names := [(crc32 (bs "Bar1"), bs "Bar1")] }) :=
  ⟨by decide, by decide, by decide, by decide,
   C5_amended_code_order t5v (crc32 (bs "Bar1")) 1 (crc32 (bs "Bar"))
     (bs "Bar") (bs "Bar1") (by decide) (by decide) (by decide) (by decide)⟩

/--
**C9.** When emitting a name, the per-document extra name table is consulted
before the process-wide default table: if both tables resolve the hash — to
different strings — the name coming from the document's own string values is
the one emitted.
-/
theorem C9_extra_table_precedence (extra deft : NameTable) (h i p : Nat)
    (s1 s2 : ByteStr) (e1 d1 : NameTable)
    (hx : getName extra h i p = (some s1, e1))
    (hd : getName deft h i p = (some s2, d1))
    (hne : s1 ≠ s2) :
    (emitName (extra, deft) h i p).1 = .str s1 := by
  unfold emitName
  rw [hx]

/-- Concrete tables for the C9 witness: both resolve hash 5, to different
strings. -/
def extra9 : NameTable := ⟨[(5, bs "A")], [], []⟩

/-- The default table of the C9 witness. -/
def deft9 : NameTable := ⟨[(5, bs "B")], [], []⟩

/-- Witness for C9. -/
theorem C9_extra_table_precedence_witness :
    getName extra9 5 0 0 = (some (bs "A"), extra9) ∧
    getName deft9 5 0 0 = (some (bs "B"), deft9) ∧
    bs "A" ≠ bs "B" ∧
    (emitName (extra9, deft9) 5 0 0).1 = .str (bs "A") :=
  ⟨by decide, by decide, by decide,
   C9_extra_table_precedence extra9 deft9 5 0 0 (bs "A") (bs "B") extra9 deft9
     (by decide) (by decide) (by decide)⟩

/--
**C10.** Parent-derived name guessing consults only the `names` dictionary
for the parent hash, never `owned_names`: when the parent hash is absent
from `names` (even if present in `owned_names`) and the hash itself is in
neither dictionary, `GetName` skips the parent-derived guessing entirely and
falls through to the numbered-names scan.
-/
theorem C10_parent_guess_names_only (t : NameTable) (hash index parent : Nat)
    (h1 : lookupL t.names hash = none)
    (h2 : lookupL t.owned_names hash = none)
    (h3 : lookupL t.names parent = none) :
    getName t hash index parent = numberedScan t hash index := by
  unfold getName
  rw [h1, h2, h3]

/-- A table whose `owned_names` — but not `names` — resolves the parent
hash 7; used as the C10 witness. -/
def t10w : NameTable := ⟨[], [(7, bs "Par")], []⟩

/-- Witness for C10: with the parent name only in `owned_names`, the call
degenerates to the numbered-names scan (which here fails). -/
theorem C10_parent_guess_names_only_witness :
    lookupL t10w.names 5 = none ∧
    lookupL t10w.owned_names 5 = none ∧
    lookupL t10w.names 7 = none ∧
    lookupL t10w.owned_names 7 = some (bs "Par") ∧
    getName t10w 5 1 7 = numberedScan t10w 5 1 ∧
    getName t10w 5 1 7 = (none, t10w) :=
  ⟨by decide, by decide, by decide, by decide,
   C10_parent_guess_names_only t10w 5 1 7 (by decide) (by decide) (by decide),
   by decide⟩

/-! ## Error classification for sequence parsing (towards C7) -/

/-- Whether a reader result is the `InvalidData` error. -/
def isID : Except Err α → Bool
  | .error (.invalidData _) => true
  | _ => false

/-- Whether a node is a scalar node. -/
def isScalarNode : YamlNode → Bool
  | .scalar _ _ => true
  | _ => false

/-- The sequence tags accepted by `read(const ryml::NodeRef&, Parameter*)`,
in source order. -/
def listedTags : List String :=
  ["!vec2", "!vec3", "!vec4", "!color", "!curve", "!buffer_int", "!buffer_f32",
   "!buffer_u32", "!buffer_binary", "!quat"]

/-- The exact arity demanded by the fixed-size numerical-struct tags. -/
def fixedArity (tag : String) : Option Nat :=
  if tag = "!vec2" then some 2
  else if tag = "!vec3" then some 3
  else if tag = "!vec4" ∨ tag = "!color" ∨ tag = "!quat" then some 4
  else none

theorem parseScalar_cases (tag : String) (s : Scalar) :
    (∃ v, parseScalar tag s = .ok v) ∨ ∃ m, parseScalar tag s = .error (.typeError m) := by
  unfold parseScalar
  cases h : recognizeTag tag with
  | none => exact .inl ⟨s, rfl⟩
  | some ty =>
    cases ty <;> cases s <;>
      first
        | exact .inl ⟨_, rfl⟩
        | exact .inr ⟨_, rfl⟩

theorem getU64_cases (n : YamlNode) (h : isScalarNode n = true) :
    (∃ v, getU64 n = .ok v) ∨ ∃ m, getU64 n = .error (.typeError m) := by
  cases n with
  | scalar tag s =>
    simp only [getU64, parseScalarNode]
    rcases parseScalar_cases tag s with ⟨v, hv⟩ | ⟨m, hm⟩
    · rw [hv, exbind_ok]
      cases v with
      | int w => exact .inl ⟨w, rfl⟩
      | null => exact .inr ⟨_, rfl⟩
      | bool _ => exact .inr ⟨_, rfl⟩
      | float _ => exact .inr ⟨_, rfl⟩
      | str _ => exact .inr ⟨_, rfl⟩
    · rw [hm, exbind_err]
      exact .inr ⟨m, rfl⟩
  | seq tag c => exact absurd h (by simp [isScalarNode])
  | map tag m => exact absurd h (by simp [isScalarNode])

theorem getF32_cases (n : YamlNode) (h : isScalarNode n = true) :
    (∃ v, getF32 n = .ok v) ∨ ∃ m, getF32 n = .error (.typeError m) := by
  cases n with
  | scalar tag s =>
    simp only [getF32, parseScalarNode]
    rcases parseScalar_cases tag s with ⟨v, hv⟩ | ⟨m, hm⟩
    · rw [hv, exbind_ok]
      cases v with
      | float w => exact .inl ⟨w, rfl⟩
      | null => exact .inr ⟨_, rfl⟩
      | bool _ => exact .inr ⟨_, rfl⟩
      | int _ => exact .inr ⟨_, rfl⟩
      | str _ => exact .inr ⟨_, rfl⟩
    · rw [hm, exbind_err]
      exact .inr ⟨m, rfl⟩
  | seq tag c => exact absurd h (by simp [isScalarNode])
  | map tag m => exact absurd h (by simp [isScalarNode])

theorem readU32_cases (n : YamlNode) (h : isScalarNode n = true) :
    (∃ v, readU32 n = .ok v) ∨ ∃ m, readU32 n = .error (.typeError m) := by
  unfold readU32
  rcases getU64_cases n h with ⟨v, hv⟩ | ⟨m, hm⟩
  · rw [hv, exbind_ok]; exact .inl ⟨_, rfl⟩
  · rw [hm, exbind_err]; exact .inr ⟨m, rfl⟩

theorem readS32_cases (n : YamlNode) (h : isScalarNode n = true) :
    (∃ v, readS32 n = .ok v) ∨ ∃ m, readS32 n = .error (.typeError m) := by
  unfold readS32
  rcases getU64_cases n h with ⟨v, hv⟩ | ⟨m, hm⟩
  · rw [hv, exbind_ok]; exact .inl ⟨_, rfl⟩
  · rw [hm, exbind_err]; exact .inr ⟨m, rfl⟩

theorem readU8_cases (n : YamlNode) (h : isScalarNode n = true) :
    (∃ v, readU8 n = .ok v) ∨ ∃ m, readU8 n = .error (.typeError m) := by
  unfold readU8
  rcases getU64_cases n h with ⟨v, hv⟩ | ⟨m, hm⟩
  · rw [hv, exbind_ok]; exact .inl ⟨_, rfl⟩
  · rw [hm, exbind_err]; exact .inr ⟨m, rfl⟩

theorem exMapM_cases (f : YamlNode → Except Err β) (l : List YamlNode)
    (hf : ∀ x ∈ l, (∃ v, f x = .ok v) ∨ ∃ m, f x = .error (.typeError m)) :
    (∃ v, exMapM f l = .ok v) ∨ ∃ m, exMapM f l = .error (.typeError m) := by
  induction l with
  | nil => exact .inl ⟨[], rfl⟩
  | cons x rest ih =>
    unfold exMapM
    rcases hf x (by simp) with ⟨v, hv⟩ | ⟨m, hm⟩
    · rw [hv, exbind_ok]
      rcases ih (fun y hy => hf y (by simp [hy])) with ⟨vs, hvs⟩ | ⟨m, hm2⟩
      · rw [hvs, exbind_ok]; exact .inl ⟨_, rfl⟩
      · rw [hm2, exbind_err]; exact .inr ⟨m, rfl⟩
    · rw [hm, exbind_err]; exact .inr ⟨m, rfl⟩

theorem readFloats_cases (k : Nat) (xs : List YamlNode)
    (hs : ∀ x ∈ xs, isScalarNode x = true) (hlen : k ≤ xs.length) :
    (∃ v : List Nat × List YamlNode, readFloats k xs = .ok v ∧
      v.2.length = xs.length - k ∧ ∀ x ∈ v.2, isScalarNode x = true) ∨
    ∃ m, readFloats k xs = .error (.typeError m) := by
  induction k generalizing xs with
  | zero => exact .inl ⟨([], xs), rfl, by simp, hs⟩
  | succ k ih =>
    cases xs with
    | nil => simp at hlen
    | cons x rest =>
      unfold readFloats
      rcases getF32_cases x (hs x (by simp)) with ⟨v, hv⟩ | ⟨m, hm⟩
      · rw [hv, exbind_ok]
        rcases ih rest (fun y hy => hs y (by simp [hy])) (by simpa using hlen) with
          ⟨⟨fs, rem⟩, hrf, hlen2, hsc⟩ | ⟨m, hm2⟩
        · rw [hrf, exbind_ok]
          exact .inl ⟨(v :: fs, rem), rfl, by simp at hlen2 ⊢; omega, hsc⟩
        · rw [hm2, exbind_err]; exact .inr ⟨m, rfl⟩
      · rw [hm, exbind_err]; exact .inr ⟨m, rfl⟩

theorem readCurve_cases (cs : List YamlNode)
    (hs : ∀ x ∈ cs, isScalarNode x = true) (hlen : 32 ≤ cs.length) :
    (∃ v : Curve × List YamlNode, readCurve cs = .ok v ∧
      v.2.length = cs.length - 32 ∧ ∀ x ∈ v.2, isScalarNode x = true) ∨
    ∃ m, readCurve cs = .error (.typeError m) := by
  cases cs with
  | nil => simp at hlen
  | cons a cs' =>
    cases cs' with
    | nil => simp at hlen
    | cons b rest =>
      simp only [readCurve]
      rcases getU64_cases a (hs a (by simp)) with ⟨va, hva⟩ | ⟨m, hm⟩
      · rw [hva, exbind_ok]
        rcases getU64_cases b (hs b (by simp)) with ⟨vb, hvb⟩ | ⟨m, hm⟩
        · rw [hvb, exbind_ok]
          rcases readFloats_cases 30 rest (fun y hy => hs y (by simp [hy]))
              (by simp at hlen ⊢; omega) with
            ⟨⟨fs, rem⟩, hrf, hlen2, hsc⟩ | ⟨m, hm2⟩
          · rw [hrf, exbind_ok]
            refine .inl ⟨_, rfl, ?_, hsc⟩
            simp at hlen2 ⊢
            omega
          · rw [hm2, exbind_err]; exact .inr ⟨m, rfl⟩
        · rw [hm, exbind_err]; exact .inr ⟨m, rfl⟩
      · rw [hm, exbind_err]; exact .inr ⟨m, rfl⟩

theorem readVec2_cases (cs : List YamlNode) (hs : ∀ x ∈ cs, isScalarNode x = true) :
    (cs.length ≠ 2 ∧
      readVec2 cs = .error (.invalidData "Unexpected number of children")) ∨
    (cs.length = 2 ∧
      ((∃ v, readVec2 cs = .ok v) ∨ ∃ m, readVec2 cs = .error (.typeError m))) := by
  match cs with
  | [] => exact .inl ⟨by simp, rfl⟩
  | [a] => exact .inl ⟨by simp, rfl⟩
  | a :: b :: c :: rest => exact .inl ⟨by simp, rfl⟩
  | [a, b] =>
    refine .inr ⟨rfl, ?_⟩
    simp only [readVec2]
    rcases getF32_cases a (hs a (by simp)) with ⟨va, hva⟩ | ⟨m, hm⟩
    · rw [hva, exbind_ok]
      rcases getF32_cases b (hs b (by simp)) with ⟨vb, hvb⟩ | ⟨m, hm⟩
      · rw [hvb, exbind_ok]; exact .inl ⟨_, rfl⟩
      · rw [hm, exbind_err]; exact .inr ⟨m, rfl⟩
    · rw [hm, exbind_err]; exact .inr ⟨m, rfl⟩

theorem readVec3_cases (cs : List YamlNode) (hs : ∀ x ∈ cs, isScalarNode x = true) :
    (cs.length ≠ 3 ∧
      readVec3 cs = .error (.invalidData "Unexpected number of children")) ∨
    (cs.length = 3 ∧
      ((∃ v, readVec3 cs = .ok v) ∨ ∃ m, readVec3 cs = .error (.typeError m))) := by
  match cs with
  | [] => exact .inl ⟨by simp, rfl⟩
  | [a] => exact .inl ⟨by simp, rfl⟩
  | [a, b] => exact .inl ⟨by simp, rfl⟩
  | a :: b :: c :: d :: rest => exact .inl ⟨by simp, rfl⟩
  | [a, b, c] =>
    refine .inr ⟨rfl, ?_⟩
    simp only [readVec3]
    rcases getF32_cases a (hs a (by simp)) with ⟨va, hva⟩ | ⟨m, hm⟩
    · rw [hva, exbind_ok]
      rcases getF32_cases b (hs b (by simp)) with ⟨vb, hvb⟩ | ⟨m, hm⟩
      · rw [hvb, exbind_ok]
        rcases getF32_cases c (hs c (by simp)) with ⟨vc, hvc⟩ | ⟨m, hm⟩
        · rw [hvc, exbind_ok]; exact .inl ⟨_, rfl⟩
        · rw [hm, exbind_err]; exact .inr ⟨m, rfl⟩
      · rw [hm, exbind_err]; exact .inr ⟨m, rfl⟩
    · rw [hm, exbind_err]; exact .inr ⟨m, rfl⟩

theorem readVec4_cases (cs : List YamlNode) (hs : ∀ x ∈ cs, isScalarNode x = true) :
    (cs.length ≠ 4 ∧
      readVec4 cs = .error (.invalidData "Unexpected number of children")) ∨
    (cs.length = 4 ∧
      ((∃ v, readVec4 cs = .ok v) ∨ ∃ m, readVec4 cs = .error (.typeError m))) := by
  match cs with
  | [] => exact .inl ⟨by simp, rfl⟩
  | [a] => exact .inl ⟨by simp, rfl⟩
  | [a, b] => exact .inl ⟨by simp, rfl⟩
  | [a, b, c] => exact .inl ⟨by simp, rfl⟩
  | a :: b :: c :: d :: e :: rest => exact .inl ⟨by simp, rfl⟩
  | [a, b, c, d] =>
    refine .inr ⟨rfl, ?_⟩
    simp only [readVec4]
    rcases getF32_cases a (hs a (by simp)) with ⟨va, hva⟩ | ⟨m, hm⟩
    · rw [hva, exbind_ok]
      rcases getF32_cases b (hs b (by simp)) with ⟨vb, hvb⟩ | ⟨m, hm⟩
      · rw [hvb, exbind_ok]
        rcases getF32_cases c (hs c (by simp)) with ⟨vc, hvc⟩ | ⟨m, hm⟩
        · rw [hvc, exbind_ok]
          rcases getF32_cases d (hs d (by simp)) with ⟨vd, hvd⟩ | ⟨m, hm⟩
          · rw [hvd, exbind_ok]; exact .inl ⟨_, rfl⟩
          · rw [hm, exbind_err]; exact .inr ⟨m, rfl⟩
        · rw [hm, exbind_err]; exact .inr ⟨m, rfl⟩
      · rw [hm, exbind_err]; exact .inr ⟨m, rfl⟩
    · rw [hm, exbind_err]; exact .inr ⟨m, rfl⟩

theorem curveBranch_classify (cs : List YamlNode)
    (hs : ∀ x ∈ cs, isScalarNode x = true) :
    ((cs.length = 32 ∨ cs.length = 64 ∨ cs.length = 96 ∨ cs.length = 128) ∧
      ((∃ v, curveBranch cs = .ok v) ∨ ∃ m, curveBranch cs = .error (.typeError m))) ∨
    ((cs.length ≠ 32 ∧ cs.length ≠ 64 ∧ cs.length ≠ 96 ∧ cs.length ≠ 128) ∧
      curveBranch cs =
        .error (.invalidData "Invalid curve: unexpected number of children")) := by
  by_cases h32 : cs.length = 32
  · refine .inl ⟨.inl h32, ?_⟩
    unfold curveBranch
    rw [if_pos h32]
    rcases readCurve_cases cs hs (by omega) with ⟨v, hv, _, _⟩ | ⟨m, hm⟩
    · rw [hv, exbind_ok]; exact .inl ⟨_, rfl⟩
    · rw [hm, exbind_err]; exact .inr ⟨m, rfl⟩
  by_cases h64 : cs.length = 64
  · refine .inl ⟨.inr (.inl h64), ?_⟩
    unfold curveBranch
    rw [if_neg h32, if_pos h64]
    rcases readCurve_cases cs hs (by omega) with ⟨v, hv, hl, hsc⟩ | ⟨m, hm⟩
    · rw [hv, exbind_ok]
      rcases readCurve_cases v.2 hsc (by omega) with ⟨w, hw, _, _⟩ | ⟨m, hm⟩
      · rw [hw, exbind_ok]; exact .inl ⟨_, rfl⟩
      · rw [hm, exbind_err]; exact .inr ⟨m, rfl⟩
    · rw [hm, exbind_err]; exact .inr ⟨m, rfl⟩
  by_cases h96 : cs.length = 96
  · refine .inl ⟨.inr (.inr (.inl h96)), ?_⟩
    unfold curveBranch
    rw [if_neg h32, if_neg h64, if_pos h96]
    rcases readCurve_cases cs hs (by omega) with ⟨v, hv, hl, hsc⟩ | ⟨m, hm⟩
    · rw [hv, exbind_ok]
      rcases readCurve_cases v.2 hsc (by omega) with ⟨w, hw, hl2, hsc2⟩ | ⟨m, hm⟩
      · rw [hw, exbind_ok]
        rcases readCurve_cases w.2 hsc2 (by omega) with ⟨u, hu, _, _⟩ | ⟨m, hm⟩
        · rw [hu, exbind_ok]; exact .inl ⟨_, rfl⟩
        · rw [hm, exbind_err]; exact .inr ⟨m, rfl⟩
      · rw [hm, exbind_err]; exact .inr ⟨m, rfl⟩
    · rw [hm, exbind_err]; exact .inr ⟨m, rfl⟩
  by_cases h128 : cs.length = 128
  · refine .inl ⟨.inr (.inr (.inr h128)), ?_⟩
    unfold curveBranch
    rw [if_neg h32, if_neg h64, if_neg h96, if_pos h128]
    rcases readCurve_cases cs hs (by omega) with ⟨v, hv, hl, hsc⟩ | ⟨m, hm⟩
    · rw [hv, exbind_ok]
      rcases readCurve_cases v.2 hsc (by omega) with ⟨w, hw, hl2, hsc2⟩ | ⟨m, hm⟩
      · rw [hw, exbind_ok]
        rcases readCurve_cases w.2 hsc2 (by omega) with ⟨u, hu, hl3, hsc3⟩ | ⟨m, hm⟩
        · rw [hu, exbind_ok]
          rcases readCurve_cases u.2 hsc3 (by omega) with ⟨z, hz, _, _⟩ | ⟨m, hm⟩
          · rw [hz, exbind_ok]; exact .inl ⟨_, rfl⟩
          · rw [hm, exbind_err]; exact .inr ⟨m, rfl⟩
        · rw [hm, exbind_err]; exact .inr ⟨m, rfl⟩
      · rw [hm, exbind_err]; exact .inr ⟨m, rfl⟩
    · rw [hm, exbind_err]; exact .inr ⟨m, rfl⟩
  · refine .inr ⟨⟨h32, h64, h96, h128⟩, ?_⟩
    unfold curveBranch
    rw [if_neg h32, if_neg h64, if_neg h96, if_neg h128]

/-! ## Element round-trip lemmas -/

theorem readU32_int (v : Nat) (h : v < 2 ^ 32) :
    readU32 (.scalar "" (.int v)) = .ok v := by
  unfold readU32
  rw [getU64_int, exbind_ok, Nat.mod_eq_of_lt h]

theorem readU8_int (v : Nat) (h : v < 2 ^ 8) :
    readU8 (.scalar "" (.int v)) = .ok v := by
  unfold readU8
  rw [getU64_int, exbind_ok, Nat.mod_eq_of_lt h]

theorem toS32_toU64 (v : Int) (h1 : -2 ^ 31 ≤ v) (h2 : v < 2 ^ 31) :
    toS32 (toU64 v) = v := by
  unfold toS32 toU64
  omega

theorem readS32_int (v : Int) (h1 : -2 ^ 31 ≤ v) (h2 : v < 2 ^ 31) :
    readS32 (.scalar "" (.int (toU64 v))) = .ok v := by
  unfold readS32
  rw [getU64_int, exbind_ok, toS32_toU64 v h1 h2]

theorem exMapM_readU32_map (vs : List Nat) (h : ∀ v ∈ vs, v < 2 ^ 32) :
    exMapM readU32 (vs.map (fun v => YamlNode.scalar "" (.int v))) = .ok vs := by
  induction vs with
  | nil => rfl
  | cons v rest ih =>
    simp only [List.map_cons, exMapM, readU32_int v (h v (by simp)), exbind_ok,
      ih (fun y hy => h y (by simp [hy]))]

theorem exMapM_getF32_map (vs : List Nat) :
    exMapM getF32 (vs.map (fun b => YamlNode.scalar "" (.float b))) = .ok vs := by
  induction vs with
  | nil => rfl
  | cons v rest ih =>
    simp only [List.map_cons, exMapM, getF32_float, exbind_ok, ih]

theorem exMapM_readU8_map (vs : List Nat) (h : ∀ v ∈ vs, v < 2 ^ 8) :
    exMapM readU8 (vs.map (fun v => YamlNode.scalar "" (.int v))) = .ok vs := by
  induction vs with
  | nil => rfl
  | cons v rest ih =>
    simp only [List.map_cons, exMapM, readU8_int v (h v (by simp)), exbind_ok,
      ih (fun y hy => h y (by simp [hy]))]

theorem exMapM_readS32_map (vs : List Int) (h : ∀ v ∈ vs, -2 ^ 31 ≤ v ∧ v < 2 ^ 31) :
    exMapM readS32 (vs.map (fun v => YamlNode.scalar "" (.int (toU64 v)))) = .ok vs := by
  induction vs with
  | nil => rfl
  | cons v rest ih =>
    simp only [List.map_cons, exMapM,
      readS32_int v (h v (by simp)).1 (h v (by simp)).2, exbind_ok,
      ih (fun y hy => h y (by simp [hy]))]

/-! ## Dispatch equations of `read(…, Parameter*)` on sequences -/

theorem readParameter_vec2 (s : YamlSeq) :
    readParameter (.seq "!vec2" s) =
      (do let v ← readVec2 s.toList; Except.ok (some (.vec2 v.1 v.2))) := rfl

theorem readParameter_vec3 (s : YamlSeq) :
    readParameter (.seq "!vec3" s) =
      (do let v ← readVec3 s.toList;
          Except.ok (some (.vec3 v.1 v.2.1 v.2.2))) := rfl

theorem readParameter_vec4 (s : YamlSeq) :
    readParameter (.seq "!vec4" s) =
      (do let v ← readVec4 s.toList;
          Except.ok (some (.vec4 v.1 v.2.1 v.2.2.1 v.2.2.2))) := rfl

theorem readParameter_color (s : YamlSeq) :
    readParameter (.seq "!color" s) =
      (do let v ← readVec4 s.toList;
          Except.ok (some (.color v.1 v.2.1 v.2.2.1 v.2.2.2))) := rfl

theorem readParameter_quat (s : YamlSeq) :
    readParameter (.seq "!quat" s) =
      (do let v ← readVec4 s.toList;
          Except.ok (some (.quat v.1 v.2.1 v.2.2.1 v.2.2.2))) := rfl

theorem readParameter_buffer_int (s : YamlSeq) :
    readParameter (.seq "!buffer_int" s) =
      (do let v ← exMapM readS32 s.toList; Except.ok (some (.bufInt v))) := rfl

theorem readParameter_buffer_f32 (s : YamlSeq) :
    readParameter (.seq "!buffer_f32" s) =
      (do let v ← exMapM getF32 s.toList; Except.ok (some (.bufF32 v))) := rfl

theorem readParameter_buffer_u32 (s : YamlSeq) :
    readParameter (.seq "!buffer_u32" s) =
      (do let v ← exMapM readU32 s.toList; Except.ok (some (.bufU32 v))) := rfl

theorem readParameter_buffer_binary (s : YamlSeq) :
    readParameter (.seq "!buffer_binary" s) =
      (do let v ← exMapM readU8 s.toList; Except.ok (some (.bufBin v))) := rfl

theorem readParameter_seq_other (tag : String) (s : YamlSeq)
    (h1 : tag ≠ "!vec2") (h2 : tag ≠ "!vec3") (h3 : tag ≠ "!vec4")
    (h4 : tag ≠ "!color") (h5 : tag ≠ "!curve") (h6 : tag ≠ "!buffer_int")
    (h7 : tag ≠ "!buffer_f32") (h8 : tag ≠ "!buffer_u32")
    (h9 : tag ≠ "!buffer_binary") (h10 : tag ≠ "!quat") :
    readParameter (.seq tag s) =
      .error (.invalidData "Unexpected sequence tag (or no tag)") := by
  simp only [readParameter]
  rw [if_neg h1, if_neg h2, if_neg h3, if_neg h4, if_neg h5, if_neg h6, if_neg h7,
    if_neg h8, if_neg h9, if_neg h10]

/--
**C7, amended.** For a YAML sequence whose elements are scalar nodes,
parsing as a `Parameter` throws `InvalidData` if and only if the sequence
tag is not one of the ten listed tags (including the untagged case), or the
tag is `!curve` with an element count other than 32/64/96/128, or the tag is
a fixed-arity struct tag (`!vec2`/`!vec3`/`!vec4`/`!color`/`!quat`) with the
wrong element count; and every sequence with a listed tag and valid shape
parses to the corresponding variant.
-/
theorem C7_amended_seq_tag_dispatch :
    (∀ (tag : String) (s : YamlSeq), (∀ x ∈ s.toList, isScalarNode x = true) →
      (isID (readParameter (.seq tag s)) = true ↔
        (tag ∉ listedTags ∨
          (tag = "!curve" ∧ s.toList.length ≠ 32 ∧ s.toList.length ≠ 64 ∧
            s.toList.length ≠ 96 ∧ s.toList.length ≠ 128) ∨
          (∃ a, fixedArity tag = some a ∧ s.toList.length ≠ a)))) ∧
    (∀ x y : Nat,
      readParameter (.seq "!vec2" (seqOf [.scalar "" (.float x), .scalar "" (.float y)])) =
        .ok (some (.vec2 x y))) ∧
    (∀ x y z : Nat,
      readParameter (.seq "!vec3" (seqOf [.scalar "" (.float x), .scalar "" (.float y),
        .scalar "" (.float z)])) = .ok (some (.vec3 x y z))) ∧
    (∀ x y z w : Nat,
      readParameter (.seq "!vec4" (seqOf [.scalar "" (.float x), .scalar "" (.float y),
        .scalar "" (.float z), .scalar "" (.float w)])) = .ok (some (.vec4 x y z w))) ∧
    (∀ x y z w : Nat,
      readParameter (.seq "!color" (seqOf [.scalar "" (.float x), .scalar "" (.float y),
        .scalar "" (.float z), .scalar "" (.float w)])) = .ok (some (.color x y z w))) ∧
    (∀ x y z w : Nat,
      readParameter (.seq "!quat" (seqOf [.scalar "" (.float x), .scalar "" (.float y),
        .scalar "" (.float z), .scalar "" (.float w)])) = .ok (some (.quat x y z w))) ∧
    (∀ c1 : Curve, wfCurve c1 = true →
      readParameter (.seq "!curve" (seqOf (curveScalars c1))) =
        .ok (some (.curve1 c1))) ∧
    (∀ vs : List Int, (∀ v ∈ vs, -2 ^ 31 ≤ v ∧ v < 2 ^ 31) →
      readParameter (.seq "!buffer_int"
          (seqOf (vs.map (fun v => .scalar "" (.int (toU64 v)))))) =
        .ok (some (.bufInt vs))) ∧
    (∀ vs : List Nat,
      readParameter (.seq "!buffer_f32"
          (seqOf (vs.map (fun b => .scalar "" (.float b))))) =
        .ok (some (.bufF32 vs))) ∧
    (∀ vs : List Nat, (∀ v ∈ vs, v < 2 ^ 32) →
      readParameter (.seq "!buffer_u32"
          (seqOf (vs.map (fun v => .scalar "" (.int v))))) =
        .ok (some (.bufU32 vs))) ∧
    (∀ vs : List Nat, (∀ v ∈ vs, v < 2 ^ 8) →
      readParameter (.seq "!buffer_binary"
          (seqOf (vs.map (fun v => .scalar "" (.int v))))) =
        .ok (some (.bufBin vs))) := by
  refine ⟨?_, ?_, ?_, ?_, ?_, ?_, ?_, ?_, ?_, ?_, ?_⟩
  · intro tag s hs
    by_cases h1 : tag = "!vec2"
    · subst h1
      rcases readVec2_cases s.toList hs with ⟨hne, herr⟩ | ⟨hlen2, hres⟩
      · refine iff_of_true ?_ (.inr (.inr ⟨2, rfl, hne⟩))
        rw [readParameter_vec2, herr, exbind_err]
        rfl
      · refine iff_of_false ?_ ?_
        · rcases hres with ⟨v, hv⟩ | ⟨m, hm⟩
          · rw [readParameter_vec2, hv, exbind_ok]; simp [isID]
          · rw [readParameter_vec2, hm, exbind_err]; simp [isID]
        · simp [listedTags, fixedArity, hlen2]
    by_cases h2 : tag = "!vec3"
    · subst h2
      rcases readVec3_cases s.toList hs with ⟨hne, herr⟩ | ⟨hlen2, hres⟩
      · refine iff_of_true ?_ (.inr (.inr ⟨3, rfl, hne⟩))
        rw [readParameter_vec3, herr, exbind_err]
        rfl
      · refine iff_of_false ?_ ?_
        · rcases hres with ⟨v, hv⟩ | ⟨m, hm⟩
          · rw [readParameter_vec3, hv, exbind_ok]; simp [isID]
          · rw [readParameter_vec3, hm, exbind_err]; simp [isID]
        · simp [listedTags, fixedArity, hlen2]
    by_cases h3 : tag = "!vec4"
    · subst h3
      rcases readVec4_cases s.toList hs with ⟨hne, herr⟩ | ⟨hlen2, hres⟩
      · refine iff_of_true ?_ (.inr (.inr ⟨4, rfl, hne⟩))
        rw [readParameter_vec4, herr, exbind_err]
        rfl
      · refine iff_of_false ?_ ?_
        · rcases hres with ⟨v, hv⟩ | ⟨m, hm⟩
          · rw [readParameter_vec4, hv, exbind_ok]; simp [isID]
          · rw [readParameter_vec4, hm, exbind_err]; simp [isID]
        · simp [listedTags, fixedArity, hlen2]
    by_cases h4 : tag = "!color"
    · subst h4
      rcases readVec4_cases s.toList hs with ⟨hne, herr⟩ | ⟨hlen2, hres⟩
      · refine iff_of_true ?_ (.inr (.inr ⟨4, rfl, hne⟩))
        rw [readParameter_color, herr, exbind_err]
        rfl
      · refine iff_of_false ?_ ?_
        · rcases hres with ⟨v, hv⟩ | ⟨m, hm⟩
          · rw [readParameter_color, hv, exbind_ok]; simp [isID]
          · rw [readParameter_color, hm, exbind_err]; simp [isID]
        · simp [listedTags, fixedArity, hlen2]
    by_cases h10 : tag = "!quat"
    · subst h10
      rcases readVec4_cases s.toList hs with ⟨hne, herr⟩ | ⟨hlen2, hres⟩
      · refine iff_of_true ?_ (.inr (.inr ⟨4, rfl, hne⟩))
        rw [readParameter_quat, herr, exbind_err]
        rfl
      · refine iff_of_false ?_ ?_
        · rcases hres with ⟨v, hv⟩ | ⟨m, hm⟩
          · rw [readParameter_quat, hv, exbind_ok]; simp [isID]
          · rw [readParameter_quat, hm, exbind_err]; simp [isID]
        · simp [listedTags, fixedArity, hlen2]
    by_cases h5 : tag = "!curve"
    · subst h5
      rcases curveBranch_classify s.toList hs with ⟨hin, hres⟩ | ⟨⟨n32, n64, n96, n128⟩, herr⟩
      · refine iff_of_false ?_ ?_
        · rcases hres with ⟨v, hv⟩ | ⟨m, hm⟩
          · rw [readParameter_curve, hv]; simp [isID]
          · rw [readParameter_curve, hm]; simp [isID]
        · rintro (hnl | ⟨-, a32, a64, a96, a128⟩ | ⟨a, ha, -⟩)
          · exact hnl (by simp [listedTags])
          · rcases hin with h | h | h | h
            · exact a32 h
            · exact a64 h
            · exact a96 h
            · exact a128 h
          · simp [fixedArity] at ha
      · refine iff_of_true ?_ (.inr (.inl ⟨rfl, n32, n64, n96, n128⟩))
        rw [readParameter_curve, herr]
        rfl
    by_cases h6 : tag = "!buffer_int"
    · subst h6
      refine iff_of_false ?_ ?_
      · rcases exMapM_cases readS32 s.toList
            (fun x hx => readS32_cases x (hs x hx)) with ⟨v, hv⟩ | ⟨m, hm⟩
        · rw [readParameter_buffer_int, hv, exbind_ok]; simp [isID]
        · rw [readParameter_buffer_int, hm, exbind_err]; simp [isID]
      · simp [listedTags, fixedArity]
    by_cases h7 : tag = "!buffer_f32"
    · subst h7
      refine iff_of_false ?_ ?_
      · rcases exMapM_cases getF32 s.toList
            (fun x hx => getF32_cases x (hs x hx)) with ⟨v, hv⟩ | ⟨m, hm⟩
        · rw [readParameter_buffer_f32, hv, exbind_ok]; simp [isID]
        · rw [readParameter_buffer_f32, hm, exbind_err]; simp [isID]
      · simp [listedTags, fixedArity]
    by_cases h8 : tag = "!buffer_u32"
    · subst h8
      refine iff_of_false ?_ ?_
      · rcases exMapM_cases readU32 s.toList
            (fun x hx => readU32_cases x (hs x hx)) with ⟨v, hv⟩ | ⟨m, hm⟩
        · rw [readParameter_buffer_u32, hv, exbind_ok]; simp [isID]
        · rw [readParameter_buffer_u32, hm, exbind_err]; simp [isID]
      · simp [listedTags, fixedArity]
    by_cases h9 : tag = "!buffer_binary"
    · subst h9
      refine iff_of_false ?_ ?_
      · rcases exMapM_cases readU8 s.toList
            (fun x hx => readU8_cases x (hs x hx)) with ⟨v, hv⟩ | ⟨m, hm⟩
        · rw [readParameter_buffer_binary, hv, exbind_ok]; simp [isID]
        · rw [readParameter_buffer_binary, hm, exbind_err]; simp [isID]
      · simp [listedTags, fixedArity]
    · refine iff_of_true ?_
        (.inl (by simp [listedTags, h1, h2, h3, h4, h5, h6, h7, h8, h9, h10]))
      rw [readParameter_seq_other tag s h1 h2 h3 h4 h5 h6 h7 h8 h9 h10]
      rfl
  · intro x y
    rfl
  · intro x y z
    rfl
  · intro x y z w
    rfl
  · intro x y z w
    rfl
  · intro x y z w
    rfl
  · intro c1 hc1
    have hl : (curveScalars c1).length = 32 := by
      have h := hc1
      simp only [wfCurve, Bool.and_eq_true, beq_iff_eq] at h
      simp [curveScalars_length, h.1.2]
    have e1 : readCurve (curveScalars c1) = .ok (c1, []) := by
      simpa using readCurve_emit c1 [] hc1
    rw [readParameter_curve, seqOf_toList]
    unfold curveBranch
    rw [hl, if_pos (by decide)]
    simp only [e1, exbind_ok]
  · intro vs h
    rw [readParameter_buffer_int, seqOf_toList, exMapM_readS32_map vs h, exbind_ok]
  · intro vs
    rw [readParameter_buffer_f32, seqOf_toList, exMapM_getF32_map vs, exbind_ok]
  · intro vs h
    rw [readParameter_buffer_u32, seqOf_toList, exMapM_readU32_map vs h, exbind_ok]
  · intro vs h
    rw [readParameter_buffer_binary, seqOf_toList, exMapM_readU8_map vs h, exbind_ok]

/-- Three float scalars, for the C7 counterexample. -/
def threeFloats : List YamlNode :=
  [.scalar "" (.float 1), .scalar "" (.float 2), .scalar "" (.float 3)]

/--
**C7, counterexample.** The claim's "if and only if" fails: a `!vec2`
sequence with three (scalar) children throws `InvalidData` even though
`!vec2` is one of the listed tags and is not `!curve`.
-/
theorem C7_counterexample :
    "!vec2" ∈ listedTags ∧ "!vec2" ≠ "!curve" ∧
    (∀ x ∈ threeFloats, isScalarNode x = true) ∧
    readParameter (.seq "!vec2" (seqOf threeFloats)) =
      .error (.invalidData "Unexpected number of children") ∧
    isID (readParameter (.seq "!vec2" (seqOf threeFloats))) = true :=
  ⟨by simp [listedTags], by decide, by decide, rfl, rfl⟩

/-- Witness for the amended C7, at `!vec2` with two float children. -/
theorem C7_amended_seq_tag_dispatch_witness :
    (∀ x ∈ (seqOf [YamlNode.scalar "" (.float 1),
        YamlNode.scalar "" (.float 2)]).toList, isScalarNode x = true) ∧
    (isID (readParameter (.seq "!vec2"
        (seqOf [.scalar "" (.float 1), .scalar "" (.float 2)]))) = true ↔
      ("!vec2" ∉ listedTags ∨
        ("!vec2" = "!curve" ∧
          (seqOf [YamlNode.scalar "" (.float 1),
            YamlNode.scalar "" (.float 2)]).toList.length ≠ 32 ∧
          (seqOf [YamlNode.scalar "" (.float 1),
            YamlNode.scalar "" (.float 2)]).toList.length ≠ 64 ∧
          (seqOf [YamlNode.scalar "" (.float 1),
            YamlNode.scalar "" (.float 2)]).toList.length ≠ 96 ∧
          (seqOf [YamlNode.scalar "" (.float 1),
            YamlNode.scalar "" (.float 2)]).toList.length ≠ 128) ∨
        (∃ a, fixedArity "!vec2" = some a ∧
          (seqOf [YamlNode.scalar "" (.float 1),
            YamlNode.scalar "" (.float 2)]).toList.length ≠ a))) :=
  ⟨by decide,
   C7_amended_seq_tag_dispatch.1 "!vec2"
     (seqOf [.scalar "" (.float 1), .scalar "" (.float 2)]) (by decide)⟩

/-! ## The CRC invariant through `GetName` (towards C1) -/

theorem lookupL_crc (m : List (Nat × ByteStr)) (k : Nat) (s : ByteStr)
    (hall : m.all (fun e => crc32 e.2 == e.1) = true)
    (h : lookupL m k = some s) : crc32 s = k := by
  unfold lookupL at h
  cases hf : m.find? (fun e => e.1 == k) with
  | none => rw [hf] at h; exact absurd h (by simp)
  | some e =>
    rw [hf] at h
    have he : e.2 = s := by injection h
    have hk := List.find?_some hf
    have hmem : e ∈ m := List.mem_of_find?_eq_some hf
    have hcrc := (List.all_eq_true.mp hall) e hmem
    simp only [beq_iff_eq] at hk hcrc
    rw [← he, hcrc, hk]

theorem tableInv_names (t : NameTable) (h : tableInv t = true) :
    t.names.all (fun e => crc32 e.2 == e.1) = true := by
  unfold tableInv at h
  rw [List.all_append, Bool.and_eq_true] at h
  exact h.1

theorem tableInv_owned (t : NameTable) (h : tableInv t = true) :
    t.owned_names.all (fun e => crc32 e.2 == e.1) = true := by
  unfold tableInv at h
  rw [List.all_append, Bool.and_eq_true] at h
  exact h.2

theorem tableInv_mk (t : NameTable)
    (h1 : t.names.all (fun e => crc32 e.2 == e.1) = true)
    (h2 : t.owned_names.all (fun e => crc32 e.2 == e.1) = true) :
    tableInv t = true := by
  unfold tableInv
  rw [List.all_append, Bool.and_eq_true]
  exact ⟨h1, h2⟩

/-- `AddName` with a CRC-matching candidate returns a CRC-matching string
and preserves the invariant. -/
theorem addName_crc (t : NameTable) (h : Nat) (n : ByteStr)
    (hinv : tableInv t = true) (hn : crc32 n = h) :
    crc32 (addName t h n).2 = h ∧ tableInv (addName t h n).1 = true := by
  unfold addName
  cases he : lookupL t.owned_names h with
  | some ex =>
    exact ⟨lookupL_crc _ h ex (tableInv_owned t hinv) he, hinv⟩
  | none =>
    refine ⟨hn, tableInv_mk _ (tableInv_names t hinv) ?_⟩
    rw [List.all_append, Bool.and_eq_true]
    exact ⟨tableInv_owned t hinv, by simp [hn]⟩

theorem testNames_crc (t : NameTable) (h i : Nat) (pre : ByteStr)
    (r : NameTable × ByteStr) (hinv : tableInv t = true)
    (hr : testNames t h i pre = some r) :
    crc32 r.2 = h ∧ tableInv r.1 = true := by
  unfold testNames at hr
  cases hf : (codeCandidates pre i).find? (fun c => crc32 c == h) with
  | none => rw [hf] at hr; exact absurd hr (by simp)
  | some c =>
    rw [hf] at hr
    have hc : crc32 c = h := by
      have := List.find?_some hf
      simpa using this
    have : r = addName t h c := by injection hr with h'; exact h'.symm
    rw [this]
    obtain ⟨a1, a2⟩ := addName_crc t h c hinv hc
    exact ⟨a1, a2⟩

theorem suffixPhase_crc (t : NameTable) (h i : Nat) (parentName : ByteStr)
    (sfxs : List ByteStr) (r : NameTable × ByteStr) (hinv : tableInv t = true)
    (hr : suffixPhase t h i parentName sfxs = some r) :
    crc32 r.2 = h ∧ tableInv r.1 = true := by
  induction sfxs with
  | nil => exact absurd hr (by simp [suffixPhase])
  | cons sfx rest ih =>
    unfold suffixPhase at hr
    by_cases hs : sfx.isSuffixOf parentName
    · rw [if_pos hs] at hr
      cases ht : testNames t h i (dropSfx parentName sfx) with
      | some r' =>
        rw [ht] at hr
        have : r' = r := by injection hr
        exact this ▸ testNames_crc t h i _ r' hinv ht
      | none => rw [ht] at hr; exact ih hr
    · rw [if_neg hs] at hr; exact ih hr

theorem numberedScan_crc (t : NameTable) (h i : Nat) (s : ByteStr)
    (t' : NameTable) (hinv : tableInv t = true)
    (hr : numberedScan t h i = (some s, t')) :
    crc32 s = h ∧ tableInv t' = true := by
  unfold numberedScan at hr
  cases hf : (t.numbered_names.flatMap
      (fun f => (List.range (i + 2)).map (fun j => fmtApply f j))).find?
      (fun c => crc32 c == h) with
  | none => rw [hf] at hr; exact absurd (congrArg Prod.fst hr) (by simp)
  | some c =>
    rw [hf] at hr
    simp only at hr
    have hc : crc32 c = h := by
      have := List.find?_some hf
      simpa using this
    have h1 : (addName t h c).2 = s := by
      have := congrArg Prod.fst hr
      simpa using this
    have h2 : (addName t h c).1 = t' := congrArg Prod.snd hr
    obtain ⟨a1, a2⟩ := addName_crc t h c hinv hc
    rw [← h1, ← h2]
    exact ⟨a1, a2⟩

/-- Any name returned by `GetName` hashes to the queried hash, and the
invariant is preserved. -/
theorem getName_crc (t : NameTable) (hash index parent : Nat) (s : ByteStr)
    (t' : NameTable) (hinv : tableInv t = true)
    (hc : getName t hash index parent = (some s, t')) :
    crc32 s = hash ∧ tableInv t' = true := by
  unfold getName at hc
  split at hc
  · rename_i s0 heq
    injection hc with e1 e2
    injection e1 with e1
    subst e1; subst e2
    exact ⟨lookupL_crc _ _ _ (tableInv_names t hinv) heq, hinv⟩
  · rename_i heq
    split at hc
    · rename_i s0 ho
      injection hc with e1 e2
      injection e1 with e1
      subst e1; subst e2
      exact ⟨lookupL_crc _ _ _ (tableInv_owned t hinv) ho, hinv⟩
    · rename_i ho
      split at hc
      · rename_i pn hp
        split at hc
        · rename_i r h1
          injection hc with e1 e2
          injection e1 with e1
          subst e1; subst e2
          exact testNames_crc t hash index pn r hinv h1
        · rename_i h1
          split at hc
          · rename_i r h2
            injection hc with e1 e2
            injection e1 with e1
            subst e1; subst e2
            exact testNames_crc t hash index _ r hinv h2
          · rename_i h2
            split at hc
            · rename_i r h3
              injection hc with e1 e2
              injection e1 with e1
              subst e1; subst e2
              exact suffixPhase_crc t hash index pn _ r hinv h3
            · rename_i h3
              exact numberedScan_crc t hash index s t' hinv hc
      · rename_i hp
        exact numberedScan_crc t hash index s t' hinv hc

/-- A failed `GetName` leaves the table unchanged. -/
theorem getName_none (t : NameTable) (hash index parent : Nat) (t' : NameTable)
    (hc : getName t hash index parent = (none, t')) : t' = t := by
  have scan : ∀ u : NameTable, numberedScan t hash index = (none, t') → t' = t :=
    fun _ h => (numberedScan_spec t hash index).2 t' h
  unfold getName at hc
  split at hc
  · exact absurd (congrArg Prod.fst hc) (by simp)
  · split at hc
    · exact absurd (congrArg Prod.fst hc) (by simp)
    · split at hc
      · split at hc
        · exact absurd (congrArg Prod.fst hc) (by simp)
        · split at hc
          · exact absurd (congrArg Prod.fst hc) (by simp)
          · split at hc
            · exact absurd (congrArg Prod.fst hc) (by simp)
            · exact scan t hc
      · exact scan t hc

theorem readParameter_emit (p : Parameter) (hp : wfParam p = true) :
    readParameter (emitParameter p) = .ok (some p) := by
  cases p with
  | b v => rfl
  | f bits => rfl
  | i v =>
    have h := hp
    simp only [wfParam, Bool.and_eq_true, decide_eq_true_eq] at h
    have base : readParameter (emitParameter (.i v)) =
        .ok (some (.i (toS32 (toU64 v)))) := rfl
    rw [base, toS32_toU64 v h.1 h.2]
  | vec2 x y => rfl
  | vec3 x y z => rfl
  | vec4 x y z w => rfl
  | color r g bb a => rfl
  | quat x y z w => rfl
  | str32 s =>
    have h := hp
    simp only [wfParam, Bool.and_eq_true, decide_eq_true_eq] at h
    have base : readParameter (emitParameter (.str32 s)) =
        .ok (some (.str32 (s.take 31))) := rfl
    rw [base, List.take_of_length_le h.2]
  | str64 s =>
    have h := hp
    simp only [wfParam, Bool.and_eq_true, decide_eq_true_eq] at h
    have base : readParameter (emitParameter (.str64 s)) =
        .ok (some (.str64 (s.take 63))) := rfl
    rw [base, List.take_of_length_le h.2]
  | str256 s =>
    have h := hp
    simp only [wfParam, Bool.and_eq_true, decide_eq_true_eq] at h
    have base : readParameter (emitParameter (.str256 s)) =
        .ok (some (.str256 (s.take 255))) := rfl
    rw [base, List.take_of_length_le h.2]
  | curve1 c1 =>
    have hc1 : wfCurve c1 = true := hp
    have hl : (curveScalars c1).length = 32 := by
      have h := hc1
      simp only [wfCurve, Bool.and_eq_true, beq_iff_eq] at h
      simp [curveScalars_length, h.1.2]
    have e1 : readCurve (curveScalars c1) = .ok (c1, []) := by
      simpa using readCurve_emit c1 [] hc1
    rw [show emitParameter (.curve1 c1) = .seq "!curve" (seqOf (curveScalars c1)) from rfl,
      readParameter_curve, seqOf_toList]
    unfold curveBranch
    rw [hl, if_pos (by decide)]
    simp only [e1, exbind_ok]
  | curve2 c1 c2 =>
    have h := hp
    simp only [wfParam, Bool.and_eq_true] at h
    obtain ⟨hc1, hc2⟩ := h
    have flen : ∀ c : Curve, wfCurve c = true → c.floats.length = 30 := by
      intro c hc
      simp only [wfCurve, Bool.and_eq_true, beq_iff_eq] at hc
      exact hc.1.2
    have hl : (curveScalars c1 ++ curveScalars c2).length = 64 := by
      simp [curveScalars_length, flen c1 hc1, flen c2 hc2]
    have e1 : readCurve (curveScalars c1 ++ curveScalars c2) =
        .ok (c1, curveScalars c2) := readCurve_emit c1 _ hc1
    have e2 : readCurve (curveScalars c2) = .ok (c2, []) := by
      simpa using readCurve_emit c2 [] hc2
    rw [show emitParameter (.curve2 c1 c2) =
        .seq "!curve" (seqOf (curveScalars c1 ++ curveScalars c2)) from rfl,
      readParameter_curve, seqOf_toList]
    unfold curveBranch
    rw [hl, if_neg (by decide), if_pos (by decide)]
    simp only [e1, e2, exbind_ok]
  | curve3 c1 c2 c3 =>
    have h := hp
    simp only [wfParam, Bool.and_eq_true] at h
    obtain ⟨⟨hc1, hc2⟩, hc3⟩ := h
    have flen : ∀ c : Curve, wfCurve c = true → c.floats.length = 30 := by
      intro c hc
      simp only [wfCurve, Bool.and_eq_true, beq_iff_eq] at hc
      exact hc.1.2
    have hl : (curveScalars c1 ++ curveScalars c2 ++ curveScalars c3).length = 96 := by
      simp [curveScalars_length, flen c1 hc1, flen c2 hc2, flen c3 hc3]
    have e1 : readCurve (curveScalars c1 ++ (curveScalars c2 ++ curveScalars c3)) =
        .ok (c1, curveScalars c2 ++ curveScalars c3) := readCurve_emit c1 _ hc1
    have e2 : readCurve (curveScalars c2 ++ curveScalars c3) =
        .ok (c2, curveScalars c3) := readCurve_emit c2 _ hc2
    have e3 : readCurve (curveScalars c3) = .ok (c3, []) := by
      simpa using readCurve_emit c3 [] hc3
    rw [show emitParameter (.curve3 c1 c2 c3) =
        .seq "!curve" (seqOf (curveScalars c1 ++ curveScalars c2 ++ curveScalars c3))
        from rfl,
      readParameter_curve, seqOf_toList]
    unfold curveBranch
    rw [hl, if_neg (by decide), if_neg (by decide), if_pos (by decide)]
    simp only [List.append_assoc, e1, e2, e3, exbind_ok]
  | curve4 c1 c2 c3 c4 =>
    have h := hp
    simp only [wfParam, Bool.and_eq_true] at h
    obtain ⟨⟨⟨hc1, hc2⟩, hc3⟩, hc4⟩ := h
    have flen : ∀ c : Curve, wfCurve c = true → c.floats.length = 30 := by
      intro c hc
      simp only [wfCurve, Bool.and_eq_true, beq_iff_eq] at hc
      exact hc.1.2
    have hl : (curveScalars c1 ++ curveScalars c2 ++ curveScalars c3 ++
        curveScalars c4).length = 128 := by
      simp [curveScalars_length, flen c1 hc1, flen c2 hc2, flen c3 hc3, flen c4 hc4]
    have e1 : readCurve
        (curveScalars c1 ++ (curveScalars c2 ++ (curveScalars c3 ++ curveScalars c4))) =
        .ok (c1, curveScalars c2 ++ (curveScalars c3 ++ curveScalars c4)) :=
      readCurve_emit c1 _ hc1
    have e2 : readCurve (curveScalars c2 ++ (curveScalars c3 ++ curveScalars c4)) =
        .ok (c2, curveScalars c3 ++ curveScalars c4) := readCurve_emit c2 _ hc2
    have e3 : readCurve (curveScalars c3 ++ curveScalars c4) =
        .ok (c3, curveScalars c4) := readCurve_emit c3 _ hc3
    have e4 : readCurve (curveScalars c4) = .ok (c4, []) := by
      simpa using readCurve_emit c4 [] hc4
    rw [show emitParameter (.curve4 c1 c2 c3 c4) =
        .seq "!curve" (seqOf (curveScalars c1 ++ curveScalars c2 ++ curveScalars c3 ++
          curveScalars c4)) from rfl,
      readParameter_curve, seqOf_toList]
    unfold curveBranch
    rw [hl, if_neg (by decide), if_neg (by decide), if_neg (by decide),
      if_pos (by decide)]
    simp only [List.append_assoc, e1, e2, e3, e4, exbind_ok]
  | bufInt v =>
    have h : ∀ x ∈ v, -2 ^ 31 ≤ x ∧ x < 2 ^ 31 := by
      intro x hx
      have := (List.all_eq_true.mp hp) x hx
      simpa using this
    rw [show emitParameter (.bufInt v) =
        .seq "!buffer_int" (seqOf (v.map (fun x => .scalar "" (.int (toU64 x)))))
        from rfl,
      readParameter_buffer_int, seqOf_toList, exMapM_readS32_map v h, exbind_ok]
  | bufF32 v =>
    rw [show emitParameter (.bufF32 v) =
        .seq "!buffer_f32" (seqOf (v.map (fun b => .scalar "" (.float b)))) from rfl,
      readParameter_buffer_f32, seqOf_toList, exMapM_getF32_map v, exbind_ok]
  | bufU32 v =>
    have h : ∀ x ∈ v, x < 2 ^ 32 := by
      intro x hx
      have := (List.all_eq_true.mp hp) x hx
      simpa using this
    rw [show emitParameter (.bufU32 v) =
        .seq "!buffer_u32" (seqOf (v.map (fun x => .scalar "" (.int x)))) from rfl,
      readParameter_buffer_u32, seqOf_toList, exMapM_readU32_map v h, exbind_ok]
  | bufBin v =>
    have h : ∀ x ∈ v, x < 2 ^ 8 := by
      intro x hx
      have := (List.all_eq_true.mp hp) x hx
      simpa using this
    rw [show emitParameter (.bufBin v) =
        .seq "!buffer_binary" (seqOf (v.map (fun x => .scalar "" (.int x)))) from rfl,
      readParameter_buffer_binary, seqOf_toList, exMapM_readU8_map v h, exbind_ok]
  | u32 v =>
    have h : v < 2 ^ 32 := by simpa [wfParam] using hp
    have base : readParameter (emitParameter (.u32 v)) =
        .ok (some (.u32 (v % 2 ^ 32))) := rfl
    rw [base, Nat.mod_eq_of_lt h]
  | str s => rfl

theorem emplaceL_append {α : Type} (acc : List (Nat × α)) (k : Nat) (v : α)
    (h : ∀ e ∈ acc, e.1 ≠ k) : emplaceL acc k v = acc ++ [(k, v)] := by
  unfold emplaceL
  have hn : acc.find? (fun e => e.1 == k) = none :=
    List.find?_eq_none.mpr (fun e he => by simpa using h e he)
  rw [hn]
  rfl

theorem contains_false_forall (l : List Nat) (k : Nat) (h : l.contains k = false) :
    ∀ x ∈ l, x ≠ k := by
  intro x hx he
  subst he
  simp only [List.contains] at h
  rw [List.elem_eq_true_of_mem hx] at h
  exact Bool.noConfusion h

theorem nodupKeys_cons (k : Nat) (rest : List Nat)
    (h : nodupKeys (k :: rest) = true) :
    rest.contains k = false ∧ nodupKeys rest = true := by
  unfold nodupKeys at h
  rw [Bool.and_eq_true, Bool.not_eq_true'] at h
  exact h

/-- The key scalar produced by `EmitName` parses back to the original hash,
and both tables keep the invariant. -/
theorem emitName_key (st : EmitSt) (h i p : Nat)
    (hx : tableInv st.1 = true) (hd : tableInv st.2 = true) (hlt : h < 2 ^ 32) :
    parseKeyHash (emitName st h i p).1 = .ok h ∧
    tableInv (emitName st h i p).2.1 = true ∧
    tableInv (emitName st h i p).2.2 = true := by
  unfold emitName
  cases h1 : getName st.1 h i p with
  | mk r1 extra' =>
    cases r1 with
    | some s =>
      obtain ⟨c1, c2⟩ := getName_crc st.1 h i p s extra' hx h1
      refine ⟨?_, c2, hd⟩
      simp [parseKeyHash, c1]
    | none =>
      have he : extra' = st.1 := getName_none st.1 h i p extra' h1
      cases h2 : getName st.2 h i p with
      | mk r2 deft' =>
        cases r2 with
        | some s =>
          obtain ⟨c1, c2⟩ := getName_crc st.2 h i p s deft' hd h2
          refine ⟨?_, he ▸ hx, c2⟩
          simp [parseKeyHash, c1]
        | none =>
          have hde : deft' = st.2 := getName_none st.2 h i p deft' h2
          refine ⟨?_, he ▸ hx, hde ▸ hd⟩
          simp only [parseKeyHash, Nat.mod_eq_of_lt hlt]

/-! ## Round trip of the parameter and object maps -/

/-- Parsing the entries emitted for a parameter map appends exactly the
original entries to the accumulator, and the emission state keeps the
invariant. -/
theorem readMapParams_emit (params : List (Nat × Parameter)) (st : EmitSt)
    (parent i : Nat) (acc : List (Nat × Parameter))
    (hx : tableInv st.1 = true) (hd : tableInv st.2 = true)
    (hall : ∀ e ∈ params, e.1 < 2 ^ 32 ∧ wfParam e.2 = true)
    (hnd : nodupKeys (params.map (·.1)) = true)
    (hdisj : ∀ e ∈ acc, ∀ e' ∈ params, e.1 ≠ e'.1) :
    readMapParams (emitObjEntries st parent i params).1 acc = .ok (acc ++ params) ∧
    tableInv (emitObjEntries st parent i params).2.1 = true ∧
    tableInv (emitObjEntries st parent i params).2.2 = true := by
  induction params generalizing st i acc with
  | nil => exact ⟨by simp [emitObjEntries, readMapParams], hx, hd⟩
  | cons e rest ih =>
    obtain ⟨k, p⟩ := e
    obtain ⟨hkey, hx', hd'⟩ :=
      emitName_key st k i parent hx hd (hall (k, p) (by simp)).1
    obtain ⟨hcontains, hndrest⟩ := nodupKeys_cons k (rest.map (·.1)) (by simpa using hnd)
    have hknotinrest : ∀ e' ∈ rest, e'.1 ≠ k := by
      intro e' he'
      exact contains_false_forall (rest.map (·.1)) k hcontains e'.1
        (List.mem_map_of_mem _ he')
    have hem : emplaceL acc k p = acc ++ [(k, p)] :=
      emplaceL_append acc k p (fun e he => hdisj e he (k, p) (by simp))
    have hdisj' : ∀ e ∈ acc ++ [(k, p)], ∀ e' ∈ rest, e.1 ≠ e'.1 := by
      intro e he e' he'
      rcases List.mem_append.mp he with h | h
      · exact hdisj e h e' (by simp [he'])
      · have : e = (k, p) := by simpa using h
        rw [this]
        exact fun hq => (hknotinrest e' he') hq.symm
    obtain ⟨ih1, ih2, ih3⟩ :=
      ih (emitName st k i parent).2 (i + 1) (acc ++ [(k, p)]) hx' hd'
        (fun e he => hall e (by simp [he])) hndrest hdisj'
    refine ⟨?_, ih2, ih3⟩
    simp only [emitObjEntries, readMapParams]
    rw [hkey, exbind_ok, readParameter_emit p (hall (k, p) (by simp)).2, exbind_ok]
    simp only [hem, ih1]
    simp

/-- `read` on an emitted `!obj` mapping returns the original object. -/
theorem readPObject_emit (o : ParameterObject) (st : EmitSt) (parent : Nat)
    (hx : tableInv st.1 = true) (hd : tableInv st.2 = true)
    (hwf : wfObj o = true) :
    readPObject (emitObj st parent o).1 = .ok (some o) ∧
    tableInv (emitObj st parent o).2.1 = true ∧
    tableInv (emitObj st parent o).2.2 = true := by
  have hall : ∀ e ∈ o.params, e.1 < 2 ^ 32 ∧ wfParam e.2 = true := by
    intro e he
    have h := hwf
    unfold wfObj wfParams at h
    rw [Bool.and_eq_true] at h
    have := (List.all_eq_true.mp h.1) e he
    simpa using this
  have hnd : nodupKeys (o.params.map (·.1)) = true := by
    have h := hwf
    unfold wfObj wfParams at h
    rw [Bool.and_eq_true] at h
    exact h.2
  obtain ⟨h1, h2, h3⟩ :=
    readMapParams_emit o.params st parent 0 [] hx hd hall hnd (by simp)
  refine ⟨?_, h2, h3⟩
  simp only [emitObj, readPObject]
  rw [h1, exbind_ok]
  cases o
  simp

/-- Parsing the entries emitted for the `objects` sub-mapping appends
exactly the original object entries to the accumulator. -/
theorem readMapObjects_emit (objs : List (Nat × ParameterObject)) (st : EmitSt)
    (parent i : Nat) (acc : List (Nat × ParameterObject))
    (hx : tableInv st.1 = true) (hd : tableInv st.2 = true)
    (hall : ∀ e ∈ objs, e.1 < 2 ^ 32 ∧ wfObj e.2 = true)
    (hnd : nodupKeys (objs.map (·.1)) = true)
    (hdisj : ∀ e ∈ acc, ∀ e' ∈ objs, e.1 ≠ e'.1) :
    readMapObjects (emitObjsMap st parent i objs).1 acc = .ok (acc ++ objs) ∧
    tableInv (emitObjsMap st parent i objs).2.1 = true ∧
    tableInv (emitObjsMap st parent i objs).2.2 = true := by
  induction objs generalizing st i acc with
  | nil => exact ⟨by simp [emitObjsMap, readMapObjects], hx, hd⟩
  | cons e rest ih =>
    obtain ⟨k, o⟩ := e
    obtain ⟨hkey, hx', hd'⟩ :=
      emitName_key st k i parent hx hd (hall (k, o) (by simp)).1
    obtain ⟨hobj, hx'', hd''⟩ :=
      readPObject_emit o (emitName st k i parent).2 k hx' hd'
        (hall (k, o) (by simp)).2
    obtain ⟨hcontains, hndrest⟩ := nodupKeys_cons k (rest.map (·.1)) (by simpa using hnd)
    have hknotinrest : ∀ e' ∈ rest, e'.1 ≠ k := by
      intro e' he'
      exact contains_false_forall (rest.map (·.1)) k hcontains e'.1
        (List.mem_map_of_mem _ he')
    have hem : emplaceL acc k o = acc ++ [(k, o)] :=
      emplaceL_append acc k o (fun e he => hdisj e he (k, o) (by simp))
    have hdisj' : ∀ e ∈ acc ++ [(k, o)], ∀ e' ∈ rest, e.1 ≠ e'.1 := by
      intro e he e' he'
      rcases List.mem_append.mp he with h | h
      · exact hdisj e h e' (by simp [he'])
      · have : e = (k, o) := by simpa using h
        rw [this]
        exact fun hq => (hknotinrest e' he') hq.symm
    obtain ⟨ih1, ih2, ih3⟩ :=
      ih (emitObj (emitName st k i parent).2 k o).2 (i + 1) (acc ++ [(k, o)])
        hx'' hd'' (fun e he => hall e (by simp [he])) hndrest hdisj'
    refine ⟨?_, ih2, ih3⟩
    simp only [emitObjsMap, readMapObjects]
    rw [hkey, exbind_ok, hobj, exbind_ok]
    simp only [hem, ih1]
    simp

/-! ## Round trip of the list tree -/

mutual
/-- Structural size of a `ParameterList`, used as a fuel bound. -/
def sizeL : ParameterList → Nat
  | .mk _ lists => 1 + sizePL lists

/-- Structural size of a `lists` map. -/
def sizePL : PListEntries → Nat
  | .nil => 1
  | .cons _ v rest => 1 + sizeL v + sizePL rest
end

/-- Concatenation of `lists` maps. -/
def plAppend : PListEntries → PListEntries → PListEntries
  | .nil, b => b
  | .cons k v r, b => .cons k v (plAppend r b)

theorem plAppend_nil_right : ∀ a : PListEntries, plAppend a .nil = a
  | .nil => rfl
  | .cons k v r => by simp [plAppend, plAppend_nil_right r]

theorem plApp_plAppend : ∀ (a : PListEntries) (k : Nat) (v : ParameterList)
    (b : PListEntries), plAppend (plApp a k v) b = plAppend a (.cons k v b)
  | .nil, _, _, _ => rfl
  | .cons k' v' r, k, v, b => by simp [plApp, plAppend, plApp_plAppend r k v b]

theorem plKeys_plApp : ∀ (a : PListEntries) (k : Nat) (v : ParameterList),
    plKeys (plApp a k v) = plKeys a ++ [k]
  | .nil, _, _ => rfl
  | .cons k' v' r, k, v => by simp [plApp, plKeys, plKeys_plApp r k v]

theorem plHas_false : ∀ (acc : PListEntries) (k : Nat),
    (∀ x ∈ plKeys acc, x ≠ k) → plHas acc k = false
  | .nil, _, _ => rfl
  | .cons k' v r, k, h => by
    simp only [plHas, Bool.or_eq_false_iff]
    constructor
    · simpa using h k' (by simp [plKeys])
    · exact plHas_false r k (fun x hx => h x (by simp [plKeys, hx]))

theorem emplacePL_app (acc : PListEntries) (k : Nat) (v : ParameterList)
    (h : ∀ x ∈ plKeys acc, x ≠ k) : emplacePL acc k v = plApp acc k v := by
  unfold emplacePL
  rw [plHas_false acc k h]
  rfl

theorem wfList_destruct (objects : List (Nat × ParameterObject))
    (lists : PListEntries) (h : wfList (.mk objects lists) = true) :
    (∀ e ∈ objects, e.1 < 2 ^ 32 ∧ wfObj e.2 = true) ∧
    nodupKeys (objects.map (·.1)) = true ∧
    wfLists lists = true ∧ nodupKeys (plKeys lists) = true := by
  unfold wfList at h
  rw [Bool.and_eq_true, Bool.and_eq_true, Bool.and_eq_true] at h
  refine ⟨?_, h.1.1.2, h.1.2, h.2⟩
  intro e he
  have := (List.all_eq_true.mp h.1.1.1) e he
  simpa using this

/-- The shape equation of `readPListF` on an emitted `!list` mapping. -/
theorem readPListF_emitShape (fuel : Nat) (o1 o2 : YamlNode) :
    readPListF (fuel + 1) (.map "!list" (.cons (.str (bs "objects")) o1
      (.cons (.str (bs "lists")) o2 .nil))) =
    (do
      let objs ← readMapObjects (entriesOf o1) []
      let lsts ← readListsMapF fuel (entriesOf o2) .nil
      Except.ok (some (.mk objs lsts))) := rfl

/-- The main fuel-indexed round trip of the list tree: emitted list nodes
read back to the original lists, the name tables keep their invariant, and
the emitted node is at least as large as the structural size (so the node
count is always sufficient fuel). -/
theorem emitList_read_main : ∀ fuel : Nat,
    (∀ (l : ParameterList) (st : EmitSt) (parent : Nat),
      sizeL l ≤ fuel → tableInv st.1 = true → tableInv st.2 = true →
      wfList l = true →
      readPListF fuel (emitListNode st parent l).1 = .ok (some l) ∧
      tableInv (emitListNode st parent l).2.1 = true ∧
      tableInv (emitListNode st parent l).2.2 = true ∧
      sizeL l ≤ ySizeN (emitListNode st parent l).1) ∧
    (∀ (entries : PListEntries) (st : EmitSt) (parent i : Nat) (acc : PListEntries),
      sizePL entries ≤ fuel → tableInv st.1 = true → tableInv st.2 = true →
      wfLists entries = true → nodupKeys (plKeys entries) = true →
      (∀ x ∈ plKeys acc, ∀ y ∈ plKeys entries, x ≠ y) →
      readListsMapF fuel (emitListsMap st parent i entries).1 acc =
        .ok (plAppend acc entries) ∧
      tableInv (emitListsMap st parent i entries).2.1 = true ∧
      tableInv (emitListsMap st parent i entries).2.2 = true ∧
      sizePL entries ≤ ySizeM (emitListsMap st parent i entries).1) := by
  intro fuel
  induction fuel with
  | zero =>
    constructor
    · intro l st parent hsz
      cases l
      exact absurd hsz (by simp [sizeL])
    · intro entries st parent i acc hsz
      cases entries
      · exact absurd hsz (by simp [sizePL])
      · exact absurd hsz (by simp [sizePL])
  | succ fuel ih =>
    constructor
    · intro l st parent hsz hx hd hwf
      cases l with
      | mk objects lists =>
        obtain ⟨hobjs, hnobjs, hwfl, hnl⟩ := wfList_destruct objects lists hwf
        have hszl : sizePL lists ≤ fuel := by
          simp only [sizeL] at hsz
          omega
        obtain ⟨ho1, ho2, ho3⟩ :=
          readMapObjects_emit objects st parent 0 [] hx hd hobjs hnobjs (by simp)
        obtain ⟨hl1, hl2, hl3, hl4⟩ :=
          ih.2 lists (emitObjsMap st parent 0 objects).2 parent 0 .nil hszl
            ho2 ho3 hwfl hnl (by simp [plKeys])
        simp only [emitListNode]
        refine ⟨?_, hl2, hl3, ?_⟩
        · rw [readPListF_emitShape]
          simp only [entriesOf]
          rw [ho1, exbind_ok, hl1, exbind_ok]
          simp [plAppend]
        · simp only [ySizeN, ySizeM, sizeL]
          omega
    · intro entries st parent i acc hsz hx hd hwf hnd hdisj
      cases entries with
      | nil =>
        simp only [emitListsMap, readListsMapF]
        exact ⟨by rw [plAppend_nil_right], hx, hd, by simp [sizePL, ySizeM]⟩
      | cons k v rest =>
        have hwf' := hwf
        unfold wfLists at hwf'
        rw [Bool.and_eq_true, Bool.and_eq_true] at hwf'
        obtain ⟨⟨hklt, hwfv⟩, hwfrest⟩ := hwf'
        have hklt' : k < 2 ^ 32 := by simpa using hklt
        obtain ⟨hcontains, hndrest⟩ := nodupKeys_cons k (plKeys rest) (by simpa [plKeys] using hnd)
        have hszv : sizeL v ≤ fuel := by
          simp only [sizePL] at hsz
          omega
        have hszrest : sizePL rest ≤ fuel := by
          simp only [sizePL] at hsz
          omega
        obtain ⟨hkey, hx', hd'⟩ := emitName_key st k i parent hx hd hklt'
        obtain ⟨hv1, hv2, hv3, hv4⟩ :=
          ih.1 v (emitName st k i parent).2 k hszv hx' hd' hwfv
        have hknotin : ∀ x ∈ plKeys acc, x ≠ k :=
          fun x hx' => hdisj x hx' k (by simp [plKeys])
        have hem : emplacePL acc k v = plApp acc k v := emplacePL_app acc k v hknotin
        have hdisj' : ∀ x ∈ plKeys (plApp acc k v), ∀ y ∈ plKeys rest, x ≠ y := by
          intro x hxk y hy
          rw [plKeys_plApp] at hxk
          rcases List.mem_append.mp hxk with h | h
          · exact hdisj x h y (by simp [plKeys, hy])
          · have : x = k := by simpa using h
            subst this
            exact fun he =>
              contains_false_forall (plKeys rest) x hcontains y hy he.symm
        obtain ⟨hr1, hr2, hr3, hr4⟩ :=
          ih.2 rest (emitListNode (emitName st k i parent).2 k v).2 parent (i + 1)
            (plApp acc k v) hszrest hv2 hv3 hwfrest hndrest hdisj'
        simp only [emitListsMap]
        refine ⟨?_, hr2, hr3, ?_⟩
        · simp only [readListsMapF]
          rw [hkey, exbind_ok, hv1, exbind_ok]
          simp only [hem, hr1, plApp_plAppend]
        · simp only [ySizeM, sizePL]
          omega

/-! ## The extra name table keeps the invariant -/

theorem addNameReference_inv (t : NameTable) (n : ByteStr)
    (h : tableInv t = true) : tableInv (addNameReference t n) = true := by
  unfold addNameReference
  cases he : lookupL t.names (crc32 n) with
  | some _ => exact h
  | none =>
    refine tableInv_mk _ ?_ (tableInv_owned t h)
    rw [List.all_append, Bool.and_eq_true]
    exact ⟨tableInv_names t h, by simp⟩

theorem buildExtraObj_inv (o : ParameterObject) :
    ∀ t : NameTable, tableInv t = true → tableInv (buildExtraObj t o) = true := by
  unfold buildExtraObj
  generalize o.params = l
  induction l with
  | nil => exact fun t h => h
  | cons e rest ih =>
    intro t h
    simp only [List.foldl_cons]
    apply ih
    by_cases hs : isStringType e.2
    · simp only [hs, if_true]
      exact addNameReference_inv t _ h
    · simp only [hs, if_false]
      exact h

theorem buildExtraObjsFold_inv (objs : List (Nat × ParameterObject)) :
    ∀ t : NameTable, tableInv t = true →
      tableInv (objs.foldl (fun t e => buildExtraObj t e.2) t) = true := by
  induction objs with
  | nil => exact fun t h => h
  | cons e rest ih =>
    intro t h
    simp only [List.foldl_cons]
    exact ih _ (buildExtraObj_inv e.2 t h)

mutual
theorem buildExtraList_inv : ∀ (l : ParameterList) (t : NameTable),
    tableInv t = true → tableInv (buildExtraList t l) = true
  | .mk objects lists, t, h =>
    buildExtraLists_inv lists _ (buildExtraObjsFold_inv objects t h)

theorem buildExtraLists_inv : ∀ (e : PListEntries) (t : NameTable),
    tableInv t = true → tableInv (buildExtraLists t e) = true
  | .nil, _, h => h
  | .cons _ v rest, t, h =>
    buildExtraLists_inv rest _ (buildExtraList_inv v t h)
end

/-! ## C1: the text round trip -/

/-- The shape equation of `readPIO` on the emitted `!io` mapping. -/
theorem readPIO_emitShape (v t r : YamlNode) :
    readPIO (.map "!io" (.cons (.str (bs "version")) v
      (.cons (.str (bs "type")) t (.cons (.str (bs "param_root")) r .nil)))) =
    (do
      let ver ← readU32 v
      let ty ←
        match ← parseScalarNode t with
        | .str s => Except.ok s
        | _ => Except.error (.typeError "bad variant access")
      match ← readPListF (ySizeN r) r with
      | some root => Except.ok (some ⟨ver, ty, root⟩)
      | none => Except.error (.invalidData "failed to read node")) := rfl

/--
**C1.** For every well-formed `ParameterIO` tree and any default name table
satisfying the CRC invariant of reachable tables,
`FromText (ToText pio) = pio`: the version, the type, and every nested list,
object and parameter are reproduced with the same `u32` keys, the same
variant tags and the same values.  (The textual YAML layer is modelled by
the abstract typed-scalar tree, per the spec's shared scalar codec.)
-/
theorem C1_text_roundtrip (deft : NameTable) (pio : ParameterIO)
    (hd : tableInv deft = true) (hwf : wfPIO pio = true) :
    fromTextYaml (toTextYaml deft pio).1 = .ok pio := by
  have hw := hwf
  unfold wfPIO at hw
  rw [Bool.and_eq_true, Bool.and_eq_true] at hw
  have hver : pio.version < 2 ^ 32 := by simpa using hw.1.1
  have hroot : wfList pio.root = true := hw.2
  have hxinv : tableInv (buildExtraList emptyTable pio.root) = true :=
    buildExtraList_inv pio.root emptyTable (by decide)
  have hineq :=
    ((emitList_read_main (sizeL pio.root)).1 pio.root
      (buildExtraList emptyTable pio.root, deft) ParamRootKey le_rfl hxinv hd
      hroot).2.2.2
  obtain ⟨r1, -, -, -⟩ :=
    (emitList_read_main (ySizeN (emitListNode
      (buildExtraList emptyTable pio.root, deft) ParamRootKey pio.root).1)).1
      pio.root (buildExtraList emptyTable pio.root, deft) ParamRootKey hineq
      hxinv hd hroot
  unfold toTextYaml emitPIO fromTextYaml
  simp only
  rw [readPIO_emitShape, readU32_int pio.version hver, exbind_ok]
  rw [show parseScalarNode (.scalar "" (.str pio.type)) = .ok (.str pio.type)
    from rfl, exbind_ok]
  simp only
  rw [exbind_ok, r1, exbind_ok]

/-- A concrete document and table for the C1 witness. -/
def deftW : NameTable := ⟨[(crc32 (bs "Enemy"), bs "Enemy")], [], []⟩

/-- The document of the C1 witness: nested lists, an object, a string value
(feeding the extra name table), a guessable key and several value types. -/
def pioW : ParameterIO :=
  ⟨3, bs "xlink",
   .mk [(crc32 (bs "Enemy_1"), ⟨[(20, .u32 5), (21, .str (bs "Hello")),
          (crc32 (bs "Hello"), .i (-7)), (23, .f 0x3F800000),
          (24, .vec3 1 2 3), (25, .str32 (bs "abc")),
          (26, .bufU32 [1, 2, 3])]⟩)]
     (.cons 11 (.mk [] .nil) .nil)⟩

/-- Witness for C1: the concrete round trip, with both hypotheses
discharged by computation. -/
theorem C1_text_roundtrip_witness :
    tableInv deftW = true ∧ wfPIO pioW = true ∧
    fromTextYaml (toTextYaml deftW pioW).1 = .ok pioW :=
  ⟨by decide, by decide, C1_text_roundtrip deftW pioW (by decide) (by decide)⟩

/-! ## C8: the extra name table and key emission discipline -/

/-- The string-typed parameter values of one object, in iteration order. -/
def collectStringsObj (o : ParameterObject) : List ByteStr :=
  o.params.filterMap
    (fun e => if isStringType e.2 then some (getStringView e.2) else none)

mutual
/-- All string-typed parameter values of a list tree, in the traversal
order of `BuildExtraNameTable`: the objects of a list first, then its
sub-lists. -/
def collectStringsList : ParameterList → List ByteStr
  | .mk objects lists =>
    (objects.map (fun e => collectStringsObj e.2)).join ++
      collectStringsLists lists

/-- Traversal over the `lists` map. -/
def collectStringsLists : PListEntries → List ByteStr
  | .nil => []
  | .cons _ l rest => collectStringsList l ++ collectStringsLists rest
end

theorem buildExtraObj_eq (o : ParameterObject) :
    ∀ t : NameTable,
      buildExtraObj t o = (collectStringsObj o).foldl addNameReference t := by
  unfold buildExtraObj collectStringsObj
  generalize o.params = l
  induction l with
  | nil => exact fun t => rfl
  | cons e rest ih =>
    intro t
    simp only [List.foldl_cons, List.filterMap_cons]
    by_cases hs : isStringType e.2
    · simp only [hs, if_true, List.foldl_cons]
      exact ih _
    · simp only [hs, if_false]
      exact ih t

theorem buildExtraObjsFold_eq (objs : List (Nat × ParameterObject)) :
    ∀ t : NameTable,
      objs.foldl (fun t e => buildExtraObj t e.2) t =
        ((objs.map (fun e => collectStringsObj e.2)).join).foldl
          addNameReference t := by
  induction objs with
  | nil => exact fun t => rfl
  | cons e rest ih =>
    intro t
    simp only [List.foldl_cons, List.map_cons, List.join_cons, List.foldl_append]
    rw [buildExtraObj_eq e.2 t]
    exact ih _

mutual
/-- `BuildExtraNameTable` registers exactly the string-typed parameter
values of the whole tree, in traversal order, via `AddNameReference`. -/
theorem buildExtraList_eq : ∀ (l : ParameterList) (t : NameTable),
    buildExtraList t l = (collectStringsList l).foldl addNameReference t
  | .mk objects lists, t => by
    simp only [buildExtraList, collectStringsList, List.foldl_append]
    rw [buildExtraObjsFold_eq objects t]
    exact buildExtraLists_eq lists _

/-- Companion of `buildExtraList_eq` for the `lists` map. -/
theorem buildExtraLists_eq : ∀ (e : PListEntries) (t : NameTable),
    buildExtraLists t e = (collectStringsLists e).foldl addNameReference t
  | .nil, t => rfl
  | .cons _ v rest, t => by
    simp only [buildExtraLists, collectStringsLists, List.foldl_append]
    rw [buildExtraList_eq v t]
    exact buildExtraLists_eq rest _
end

/-- The key scalars of an emitted mapping, in order. -/
def mapKeys : YamlMap → List Scalar
  | .nil => []
  | .cons k _ rest => k :: mapKeys rest

/-- The key scalars prescribed by the claim for a run of map entries: each
key is produced by `EmitName` (hence `GetName`) applied to the entry's hash,
the running 0-based index, and the parent's name hash, with the state
threaded through the name lookups. -/
def c8Keys : EmitSt → Nat → Nat → List Nat → List Scalar
  | _, _, _, [] => []
  | st, parent, i, k :: ks =>
    (emitName st k i parent).1 ::
      c8Keys (emitName st k i parent).2 parent (i + 1) ks

/-- The relation "every key of this mapping was produced by `EmitName` at
the entry's hash, its 0-based position, and the fixed parent hash (for some
intermediate emission state)". -/
inductive KeysSpec (parent : Nat) : Nat → List Nat → List Scalar → Prop where
  | nil (i : Nat) : KeysSpec parent i [] []
  | cons (i k : Nat) (ks : List Nat) (sc : Scalar) (scs : List Scalar)
      (st : EmitSt) :
      sc = (emitName st k i parent).1 →
      KeysSpec parent (i + 1) ks scs →
      KeysSpec parent i (k :: ks) (sc :: scs)

theorem c8Keys_params (params : List (Nat × Parameter)) :
    ∀ (st : EmitSt) (parent i : Nat),
      mapKeys (emitObjEntries st parent i params).1 =
        c8Keys st parent i (params.map (·.1)) := by
  induction params with
  | nil => intro st parent i; rfl
  | cons e rest ih =>
    intro st parent i
    obtain ⟨k, p⟩ := e
    simp only [emitObjEntries, mapKeys, List.map_cons, c8Keys]
    rw [ih]

theorem keysSpec_objs (objs : List (Nat × ParameterObject)) :
    ∀ (st : EmitSt) (parent i : Nat),
      KeysSpec parent i (objs.map (·.1))
        (mapKeys (emitObjsMap st parent i objs).1) := by
  induction objs with
  | nil => intro st parent i; exact .nil i
  | cons e rest ih =>
    intro st parent i
    obtain ⟨k, o⟩ := e
    simp only [emitObjsMap, mapKeys, List.map_cons]
    exact .cons i k _ _ _ st rfl (ih _ parent (i + 1))

theorem keysSpec_lists : ∀ (entries : PListEntries) (st : EmitSt) (parent i : Nat),
    KeysSpec parent i (plKeys entries)
      (mapKeys (emitListsMap st parent i entries).1)
  | .nil, st, parent, i => .nil i
  | .cons k v rest, st, parent, i => by
    simp only [emitListsMap, mapKeys, plKeys]
    exact .cons i k _ _ _ st rfl (keysSpec_lists rest _ parent (i + 1))

theorem keysSpec_params (params : List (Nat × Parameter)) :
    ∀ (st : EmitSt) (parent i : Nat),
      KeysSpec parent i (params.map (·.1))
        (mapKeys (emitObjEntries st parent i params).1) := by
  induction params with
  | nil => intro st parent i; exact .nil i
  | cons e rest ih =>
    intro st parent i
    obtain ⟨k, p⟩ := e
    simp only [emitObjEntries, mapKeys, List.map_cons]
    exact .cons i k _ _ _ st rfl (ih _ parent (i + 1))

/--
**C8.** During `ParameterIO::ToText`: (a) before any emission the extra name
table is exactly the result of registering, via `AddNameReference`, every
string-typed parameter value of the whole tree in traversal order (and
`ToText` emits with precisely that table); (b) the key scalars of every
emitted parameter map are obtained by applying `EmitName` — and hence
`GetName` — to each entry's hash with the running 0-based position within
the current map iteration and the containing object's name hash, threading
the name-table state; (c) the same discipline governs the `objects` and
`lists` sub-mappings, whose parent is the containing list's name hash; and
(d) `EmitName` emits the recovered string on success and the literal
integer hash on failure.
-/
theorem C8_name_table_discipline :
    (∀ (t : NameTable) (l : ParameterList),
      buildExtraList t l = (collectStringsList l).foldl addNameReference t) ∧
    (∀ (deft : NameTable) (pio : ParameterIO),
      toTextYaml deft pio =
        emitPIO (buildExtraList emptyTable pio.root, deft) pio) ∧
    (∀ (st : EmitSt) (parent i : Nat) (params : List (Nat × Parameter)),
      mapKeys (emitObjEntries st parent i params).1 =
        c8Keys st parent i (params.map (·.1))) ∧
    (∀ (st : EmitSt) (parent i : Nat) (params : List (Nat × Parameter)),
      KeysSpec parent i (params.map (·.1))
        (mapKeys (emitObjEntries st parent i params).1)) ∧
    (∀ (st : EmitSt) (parent i : Nat) (objs : List (Nat × ParameterObject)),
      KeysSpec parent i (objs.map (·.1))
        (mapKeys (emitObjsMap st parent i objs).1)) ∧
    (∀ (st : EmitSt) (parent i : Nat) (entries : PListEntries),
      KeysSpec parent i (plKeys entries)
        (mapKeys (emitListsMap st parent i entries).1)) ∧
    (∀ (st : EmitSt) (h i p : Nat),
      (emitName st h i p).1 =
        match (getName st.1 h i p).1 with
        | some s => Scalar.str s
        | none =>
          match (getName st.2 h i p).1 with
          | some s => Scalar.str s
          | none => Scalar.int h) := by
  refine ⟨fun t l => buildExtraList_eq l t, fun _ _ => rfl,
    fun st parent i params => c8Keys_params params st parent i,
    fun st parent i params => keysSpec_params params st parent i,
    fun st parent i objs => keysSpec_objs objs st parent i,
    fun st parent i entries => keysSpec_lists entries st parent i,
    ?_⟩
  intro st h i p
  unfold emitName
  cases h1 : getName st.1 h i p with
  | mk r1 extra' =>
    cases r1 with
    | some s => simp [h1]
    | none =>
      cases h2 : getName st.2 h i p with
      | mk r2 deft' =>
        cases r2 with
        | some s => simp [h1, h2]
        | none => simp [h1, h2]

end OeadAamp
